import Mathlib

/-!
Verification of the two-tier data cache of the F1-stats repository.

The repository contains three cache implementations:
* `CacheManager` in `Final - ApexAnalytics/core/data_cache.py` — memory tier
  (a Python dict of key ↦ (data, timestamp)) bounded by `max_memory_items`
  with oldest-timestamp eviction, plus a pickle-file disk tier;
* `CacheManager` in `Beta3/data_cache.py` — same two tiers, unbounded memory;
* `DataCache` in `Final - Dashboard UI/core/data_cache.py` — memory only.

The embedding models time as `Int` (Python `datetime`/`timedelta` differences),
the memory dict as an insertion-ordered association list (Python 3.7+ dict
semantics: assignment to an existing key updates in place, a new key is
appended, `del` removes), and the disk directory as an association list from
file name to `DiskRecord`, where a record is either a well-formed pickle of
`(data, timestamp)` or unreadable garbage.  A `pickle.dump` that raises is
modelled by a `writeOk : Bool` oracle on `set`; the `except` branch leaves the
disk unchanged and returns `False` exactly as the source does.
-/

namespace DataCacheSpec

/-- A persisted record on disk: either a well-formed pickle of
`(data, timestamp)` or garbage bytes on which `pickle.load` raises. -/
inductive DiskRecord (α : Type) where
  | good (data : α) (timestamp : Int)
  | corrupt
deriving DecidableEq

/-- The in-process memory tier: insertion-ordered `key ↦ (data, timestamp)`. -/
abbrev MemTable (α : Type) := List (String × α × Int)

/-- The disk tier: `file name ↦ record`. -/
abbrev DiskTable (α : Type) := List (String × DiskRecord α)

/-- Association-list lookup, first binding wins (Python dict access). -/
def alookup {β : Type} : List (String × β) → String → Option β
  | [], _ => none
  | (k', v) :: rest, k => if k' = k then some v else alookup rest k

/-- Python `del d[k]` / `unlink`: drop every binding of `k`. -/
def aerase {β : Type} (l : List (String × β)) (k : String) : List (String × β) :=
  l.filter (fun p => p.1 != k)

/-- Python `d[k] = v`: update in place if the key is bound, else append. -/
def ainsert {β : Type} : List (String × β) → String → β → List (String × β)
  | [], k, v => [(k, v)]
  | (k', w) :: rest, k, v =>
    if k' = k then (k, v) :: rest else (k', w) :: ainsert rest k v

/-- `min(self.memory_cache.items(), key=lambda x: x[1][1])`: the first entry
holding the minimal timestamp (Python `min` keeps the earliest minimum). -/
def oldestEntry {α : Type} : MemTable α → Option (String × α × Int)
  | [] => none
  | e :: rest =>
    match oldestEntry rest with
    | none => some e
    | some e' => if e.2.2 ≤ e'.2.2 then some e else some e'

/-- Single-character `str.replace`, character by character. -/
def replaceChar (s : String) (c r : Char) : String :=
  ⟨s.data.map (fun x => if x = c then r else x)⟩

/-- ApexAnalytics `CacheManager._get_cache_path`:
`key.replace('/', '_').replace('\\', '_').replace(':', '_')` + `".pkl"`. -/
def getCachePath (key : String) : String :=
  replaceChar (replaceChar (replaceChar key '/' '_') '\\' '_') ':' '_' ++ ".pkl"

/-- Beta3 `CacheManager._get_cache_path`:
`key.replace('/', '_').replace('\\', '_')` + `".pkl"` (no colon handling). -/
def beta3CachePath (key : String) : String :=
  replaceChar (replaceChar key '/' '_') '\\' '_' ++ ".pkl"

/-- `glob('*.pkl')` membership: file name ends with `.pkl`. -/
def matchesPklGlob (p : String) : Bool :=
  ".pkl".data.isSuffixOf p.data

/-- The ApexAnalytics `CacheManager` state. -/
structure CacheManager (α : Type) where
  memory_cache : MemTable α
  disk : DiskTable α
  max_memory_items : Nat
  expiry_delta : Int
deriving DecidableEq

/-- The eviction block of `_set_memory_cache`: when the dict already holds at
least `mx` entries, delete the entry with the minimal timestamp. -/
def evictIfFull {α : Type} (l : MemTable α) (mx : Nat) : MemTable α :=
  if l.length ≥ mx then
    match oldestEntry l with
    | some e => aerase l e.1
    | none => l
  else l

namespace CacheManager

/-- `_set_memory_cache`: evict the oldest-timestamped entry whenever the tier
already holds at least `max_memory_items` entries, then bind the key. -/
def setMemoryCache {α : Type} (s : CacheManager α) (key : String) (data : α)
    (timestamp : Int) : CacheManager α :=
  { s with memory_cache := ainsert (evictIfFull s.memory_cache s.max_memory_items) key (data, timestamp) }

/-- The disk half of `get`: read the pickle file, lazily expire with the
strict comparison `now - timestamp > expiry_delta`, promote on a fresh hit.
A record that fails to deserialize hits the `except` branch: return `None`
and leave the file in place. -/
def readDisk {α : Type} (s : CacheManager α) (now : Int) (key : String) :
    Option α × CacheManager α :=
  match alookup s.disk (getCachePath key) with
  | none => (none, s)
  | some DiskRecord.corrupt => (none, s)
  | some (DiskRecord.good data timestamp) =>
    if now - timestamp > s.expiry_delta then
      (none, { s with disk := aerase s.disk (getCachePath key) })
    else
      (some data, setMemoryCache s key data timestamp)

/-- `CacheManager.get(key, use_memory)`: memory first (fresh iff
`now - timestamp < expiry_delta`), dropping an expired memory entry and
falling through to disk. -/
def get {α : Type} (s : CacheManager α) (now : Int) (key : String)
    (use_memory : Bool) : Option α × CacheManager α :=
  if use_memory then
    match alookup s.memory_cache key with
    | some (data, timestamp) =>
      if now - timestamp < s.expiry_delta then
        (some data, s)
      else
        readDisk { s with memory_cache := aerase s.memory_cache key } now key
    | none => readDisk s now key
  else
    readDisk s now key

/-- `CacheManager.set(key, data, persist)`: stamp `now`, write memory first,
then attempt the pickle write; a failing dump returns `False` with the disk
unchanged and the memory write kept. -/
def set {α : Type} (s : CacheManager α) (now : Int) (key : String) (data : α)
    (persist : Bool) (writeOk : Bool) : Bool × CacheManager α :=
  if persist then
    if writeOk then
      (true, { setMemoryCache s key data now with disk := ainsert s.disk (getCachePath key) (DiskRecord.good data now) })
    else
      (false, setMemoryCache s key data now)
  else
    (true, setMemoryCache s key data now)

/-- `CacheManager.delete(key)`: drop the memory entry, unlink the file if it
exists; returns `True` in both no-file and successful-unlink cases. -/
def delete {α : Type} (s : CacheManager α) (key : String) :
    Bool × CacheManager α :=
  if (alookup s.disk (getCachePath key)).isSome then
    (true, { s with memory_cache := aerase s.memory_cache key, disk := aerase s.disk (getCachePath key) })
  else
    (true, { s with memory_cache := aerase s.memory_cache key })

/-- `CacheManager.clear_all()`: empty the memory dict, unlink every
`*.pkl` file, return the number of files removed. -/
def clear_all {α : Type} (s : CacheManager α) : Nat × CacheManager α :=
  ((s.disk.filter (fun p => matchesPklGlob p.1)).length,
   { s with memory_cache := [],
            disk := s.disk.filter (fun p => !(matchesPklGlob p.1)) })

end CacheManager

/-- The Beta3 `CacheManager` state: same two tiers, unbounded memory dict. -/
structure Beta3Cache (α : Type) where
  memory_cache : MemTable α
  disk : DiskTable α
  expiry_delta : Int
deriving DecidableEq

namespace Beta3Cache

/-- Beta3 `CacheManager.get`: memory first, then the pickle file with strict
lazy expiry and plain-dict promotion. -/
def get {α : Type} (s : Beta3Cache α) (now : Int) (key : String) :
    Option α × Beta3Cache α :=
  match alookup s.memory_cache key with
  | some (data, timestamp) =>
    if now - timestamp < s.expiry_delta then
      (some data, s)
    else
      readFile { s with memory_cache := aerase s.memory_cache key } now key
  | none => readFile s now key
where
  readFile (s : Beta3Cache α) (now : Int) (key : String) :
      Option α × Beta3Cache α :=
    match alookup s.disk (beta3CachePath key) with
    | none => (none, s)
    | some DiskRecord.corrupt => (none, s)
    | some (DiskRecord.good data timestamp) =>
      if now - timestamp > s.expiry_delta then
        (none, { s with disk := aerase s.disk (beta3CachePath key) })
      else
        (some data,
         { s with memory_cache := ainsert s.memory_cache key (data, timestamp) })

/-- Beta3 `CacheManager.set`: memory write then best-effort pickle dump
(the method returns nothing, so only the state is produced). -/
def set {α : Type} (s : Beta3Cache α) (now : Int) (key : String) (data : α)
    (writeOk : Bool) : Beta3Cache α :=
  if writeOk then
    { s with memory_cache := ainsert s.memory_cache key (data, now),
             disk := ainsert s.disk (beta3CachePath key) (DiskRecord.good data now) }
  else
    { s with memory_cache := ainsert s.memory_cache key (data, now) }

/-- Beta3 `CacheManager.clear_expired`: unlink every `*.pkl` file that is
older than the expiry window or cannot be read at all. -/
def clear_expired {α : Type} (s : Beta3Cache α) (now : Int) : Beta3Cache α :=
  { s with disk := s.disk.filter (fun p =>
      !(matchesPklGlob p.1) ||
      (match p.2 with
       | DiskRecord.corrupt => false
       | DiskRecord.good _ ts => !(now - ts > s.expiry_delta))) }

end Beta3Cache

/-- The Dashboard-UI `DataCache` state: memory only, `key ↦ (timestamp, value)`. -/
structure DataCache (α : Type) where
  ttl_seconds : Int
  store : List (String × Int × α)
deriving DecidableEq

namespace DataCache

/-- `DataCache.get`: return the value unless `now - timestamp > ttl_seconds`,
in which case pop the entry and return `None`. -/
def get {α : Type} (s : DataCache α) (now : Int) (key : String) :
    Option α × DataCache α :=
  match alookup s.store key with
  | none => (none, s)
  | some (timestamp, value) =>
    if now - timestamp > s.ttl_seconds then
      (none, { s with store := aerase s.store key })
    else
      (some value, s)

/-- `DataCache.set`: store the value with the current timestamp. -/
def set {α : Type} (s : DataCache α) (now : Int) (key : String) (value : α) :
    DataCache α :=
  { s with store := ainsert s.store key (now, value) }

end DataCache

/-- One `set(key, data, persist)` call with its wall-clock time
(`writeOk` is taken to be `true`: the pickle dump succeeds). -/
abbrev SetOp (α : Type) := Int × String × α × Bool

/-- Run a sequence of successful-dump `set` calls against an
ApexAnalytics manager. -/
def runSets {α : Type} (s : CacheManager α) : List (SetOp α) → CacheManager α
  | [] => s
  | (t, k, v, p) :: rest => runSets (CacheManager.set s t k v p true).2 rest

/-- The memory-tier entry a `set` call installs. -/
def opEntry {α : Type} (op : SetOp α) : String × α × Int :=
  (op.2.1, op.2.2.1, op.1)

/-- The disk contents produced by a sequence of successful `set` calls. -/
def diskFold {α : Type} (d : DiskTable α) : List (SetOp α) → DiskTable α
  | [] => d
  | (t, k, v, p) :: rest =>
    diskFold (if p then ainsert d (getCachePath k) (DiskRecord.good v t) else d)
      rest

/-- Every memory-tier timestamp is at most `T`, and every memory key
satisfies `P`. -/
def MemBounded {α : Type} (s : CacheManager α) (P : String → Prop) (T : Int) :
    Prop :=
  ∀ e ∈ s.memory_cache, e.2.2 ≤ T ∧ P e.1

/-- Every well-formed disk timestamp is at most `T`. -/
def DiskBounded {α : Type} (s : CacheManager α) (T : Int) : Prop :=
  ∀ p v ts, (p, DiskRecord.good v ts) ∈ s.disk → ts ≤ T

/-- The spec's memory-freshness invariant: a memory-tier entry is never
older, by timestamp, than the well-formed disk record stored at that
key's cache path. -/
def MemFresh {α : Type} (s : CacheManager α) : Prop :=
  ∀ k d tm v td, alookup s.memory_cache k = some (d, tm) →
    alookup s.disk (getCachePath k) = some (DiskRecord.good v td) → td ≤ tm

/-- The keys admitted by `P` sanitize injectively (no two distinct admitted
keys share a cache path). -/
def PathInj (P : String → Prop) : Prop :=
  ∀ k₁ k₂, P k₁ → P k₂ → getCachePath k₁ = getCachePath k₂ → k₁ = k₂

/-- The inductive invariant carried along a run: timestamp bounds for both
tiers, `P`-membership of memory keys, and the memory-freshness property. -/
def Inv {α : Type} (P : String → Prop) (T : Int) (s : CacheManager α) :
    Prop :=
  MemBounded s P T ∧ DiskBounded s T ∧ MemFresh s

/-- States of the ApexAnalytics manager reachable, by `get`/`set`/`delete`/
`clear_all` calls touching only keys admitted by `P`, from a freshly
constructed manager (empty memory dict, a pre-existing disk directory whose
well-formed records are no newer than the start time, positive capacity).
The index is the time of the latest call; calls happen at nondecreasing
wall-clock times. -/
inductive ReachableP {α : Type} (P : String → Prop) :
    Int → CacheManager α → Prop where
  | init (d : DiskTable α) (mx : Nat) (δ T : Int) :
      0 < mx →
      (∀ p v ts, (p, DiskRecord.good v ts) ∈ d → ts ≤ T) →
      ReachableP P T ⟨[], d, mx, δ⟩
  | step_get (T now : Int) (k : String) (u : Bool) (s : CacheManager α) :
      ReachableP P T s → T ≤ now → P k →
      ReachableP P now (CacheManager.get s now k u).2
  | step_set (T now : Int) (k : String) (v : α) (p w : Bool)
      (s : CacheManager α) :
      ReachableP P T s → T ≤ now → P k →
      ReachableP P now (CacheManager.set s now k v p w).2
  | step_delete (T : Int) (k : String) (s : CacheManager α) :
      ReachableP P T s → P k → ReachableP P T (CacheManager.delete s k).2
  | step_clear (T : Int) (s : CacheManager α) :
      ReachableP P T s → ReachableP P T (CacheManager.clear_all s).2

/-! ### Association-list lemmas -/

theorem alookup_ainsert_self {β : Type} (l : List (String × β)) (k : String)
    (v : β) : alookup (ainsert l k v) k = some v := by
  induction l with
  | nil => simp [ainsert, alookup]
  | cons p rest ih =>
    obtain ⟨pk, pv⟩ := p
    by_cases hk : pk = k
    · simp [ainsert, hk, alookup]
    · simpa [ainsert, hk, alookup] using ih

theorem alookup_ainsert_ne {β : Type} (l : List (String × β)) (k k' : String)
    (v : β) (h : k' ≠ k) : alookup (ainsert l k v) k' = alookup l k' := by
  induction l with
  | nil =>
    have hne : k ≠ k' := Ne.symm h
    simp [ainsert, alookup, hne]
  | cons p rest ih =>
    obtain ⟨pk, pv⟩ := p
    by_cases hk : pk = k
    · have hne : k ≠ k' := Ne.symm h
      subst hk
      simp [ainsert, alookup, hne]
    · by_cases hk' : pk = k'
      · subst hk'
        simp [ainsert, hk, alookup]
      · simpa [ainsert, hk, alookup, hk'] using ih

theorem alookup_aerase {β : Type} (l : List (String × β)) (j k : String) :
    alookup (aerase l j) k = if j = k then none else alookup l k := by
  induction l with
  | nil => simp [aerase, alookup]
  | cons p rest ih =>
    by_cases hj : p.1 = j
    · have hstep : aerase (p :: rest) j = aerase rest j := by
        simp [aerase, List.filter_cons, hj]
      rw [hstep, ih]
      by_cases hjk : j = k
      · simp [hjk]
      · have hpk : p.1 ≠ k := by rw [hj]; exact hjk
        simp [hjk, alookup, hpk]
    · have hstep : aerase (p :: rest) j = p :: aerase rest j := by
        simp [aerase, List.filter_cons, hj]
      rw [hstep]
      by_cases hk : p.1 = k
      · have hjk : j ≠ k := fun hh => hj (hk.trans hh.symm)
        simp [alookup, hk, hjk]
      · simpa [alookup, hk] using ih

theorem alookup_mem {β : Type} {l : List (String × β)} {k : String} {v : β}
    (h : alookup l k = some v) : (k, v) ∈ l := by
  induction l with
  | nil => simp [alookup] at h
  | cons p rest ih =>
    by_cases hk : p.1 = k
    · have hv : p.2 = v := by simpa [alookup, hk] using h
      have : (k, v) = p := by
        cases p
        simp_all
      simp [this]
    · have h' : alookup rest k = some v := by simpa [alookup, hk] using h
      exact List.mem_cons_of_mem _ (ih h')

theorem alookup_isSome_of_mem {β : Type} {l : List (String × β)} {k : String}
    {v : β} (h : (k, v) ∈ l) : (alookup l k).isSome := by
  induction l with
  | nil => simp at h
  | cons p rest ih =>
    rcases List.mem_cons.mp h with h | h
    · have : p.1 = k := by rw [← h]
      simp [alookup, this]
    · by_cases hk : p.1 = k
      · simp [alookup, hk]
      · simpa [alookup, hk] using ih h

theorem alookup_eq_none {β : Type} {l : List (String × β)} {k : String}
    (h : ∀ p ∈ l, p.1 ≠ k) : alookup l k = none := by
  induction l with
  | nil => rfl
  | cons p rest ih =>
    have hk : p.1 ≠ k := h p (List.mem_cons_self p rest)
    simpa [alookup, hk] using ih (fun q hq => h q (List.mem_cons_of_mem p hq))

theorem mem_ainsert {β : Type} {l : List (String × β)} {k : String} {v : β}
    {e : String × β} (h : e ∈ ainsert l k v) : e = (k, v) ∨ e ∈ l := by
  induction l with
  | nil => simpa [ainsert] using h
  | cons p rest ih =>
    obtain ⟨pk, pv⟩ := p
    by_cases hk : pk = k
    · rw [ainsert, if_pos hk] at h
      rcases List.mem_cons.mp h with h | h
      · exact Or.inl h
      · exact Or.inr (List.mem_cons_of_mem _ h)
    · rw [ainsert, if_neg hk] at h
      rcases List.mem_cons.mp h with h | h
      · exact Or.inr (h ▸ List.mem_cons_self _ _)
      · rcases ih h with h | h
        · exact Or.inl h
        · exact Or.inr (List.mem_cons_of_mem _ h)

theorem mem_aerase {β : Type} {l : List (String × β)} {j : String}
    {e : String × β} (h : e ∈ aerase l j) : e ∈ l :=
  List.mem_of_mem_filter h

theorem aerase_length_le {β : Type} (l : List (String × β)) (k : String) :
    (aerase l k).length ≤ l.length :=
  List.length_filter_le _ _

theorem aerase_length_lt {β : Type} {l : List (String × β)} {k : String}
    (h : (alookup l k).isSome) : (aerase l k).length < l.length := by
  induction l with
  | nil => simp [alookup] at h
  | cons p rest ih =>
    by_cases hk : p.1 = k
    · have : aerase (p :: rest) k = aerase rest k := by
        simp [aerase, List.filter_cons, hk]
      rw [this]
      exact Nat.lt_succ_of_le (aerase_length_le rest k)
    · have h' : (alookup rest k).isSome := by simpa [alookup, hk] using h
      have : aerase (p :: rest) k = p :: aerase rest k := by
        simp [aerase, List.filter_cons, hk]
      rw [this]
      simpa using Nat.succ_lt_succ (ih h')

theorem ainsert_length_isSome {β : Type} {l : List (String × β)} {k : String}
    (v : β) (h : (alookup l k).isSome) :
    (ainsert l k v).length = l.length := by
  induction l with
  | nil => simp [alookup] at h
  | cons p rest ih =>
    obtain ⟨pk, pv⟩ := p
    by_cases hk : pk = k
    · simp [ainsert, hk]
    · have h' : (alookup rest k).isSome := by simpa [alookup, hk] using h
      simp [ainsert, hk, ih h']

theorem ainsert_of_none {β : Type} {l : List (String × β)} {k : String}
    (v : β) (h : alookup l k = none) : ainsert l k v = l ++ [(k, v)] := by
  induction l with
  | nil => simp [ainsert]
  | cons p rest ih =>
    obtain ⟨pk, pv⟩ := p
    by_cases hk : pk = k
    · simp [alookup, hk] at h
    · have h' : alookup rest k = none := by simpa [alookup, hk] using h
      simp [ainsert, hk, ih h']

theorem ainsert_length_le {β : Type} (l : List (String × β)) (k : String)
    (v : β) : (ainsert l k v).length ≤ l.length + 1 := by
  induction l with
  | nil => simp [ainsert]
  | cons p rest ih =>
    obtain ⟨pk, pv⟩ := p
    by_cases hk : pk = k
    · simp [ainsert, hk]
    · simpa [ainsert, hk] using Nat.succ_le_succ ih

theorem aerase_eq_self {β : Type} {l : List (String × β)} {k : String}
    (h : ∀ p ∈ l, p.1 ≠ k) : aerase l k = l := by
  unfold aerase
  refine List.filter_eq_self.mpr ?_
  intro p hp
  simpa using h p hp

theorem aerase_cons_head {β : Type} (p : String × β) (rest : List (String × β))
    (h : ∀ q ∈ rest, q.1 ≠ p.1) : aerase (p :: rest) p.1 = rest := by
  have : aerase (p :: rest) p.1 = aerase rest p.1 := by
    simp [aerase, List.filter_cons]
  rw [this]
  exact aerase_eq_self h

/-! ### `oldestEntry` lemmas -/

theorem oldestEntry_mem {α : Type} {l : MemTable α} :
    ∀ {e : String × α × Int}, oldestEntry l = some e → e ∈ l := by
  induction l with
  | nil => intro e h; simp [oldestEntry] at h
  | cons p rest ih =>
    intro e h
    unfold oldestEntry at h
    cases hr : oldestEntry rest with
    | none =>
      rw [hr] at h
      simp at h
      subst h
      exact List.mem_cons_self _ _
    | some e' =>
      rw [hr] at h
      have h2 : (if p.2.2 ≤ e'.2.2 then some p else some e') = some e := h
      by_cases hle : p.2.2 ≤ e'.2.2
      · rw [if_pos hle] at h2
        simp at h2
        subst h2
        exact List.mem_cons_self _ _
      · rw [if_neg hle] at h2
        simp at h2
        subst h2
        exact List.mem_cons_of_mem p (ih hr)

theorem oldestEntry_isSome {α : Type} {l : MemTable α} (h : l ≠ []) :
    (oldestEntry l).isSome := by
  cases l with
  | nil => exact absurd rfl h
  | cons p rest =>
    unfold oldestEntry
    cases oldestEntry rest with
    | none => rfl
    | some e' =>
      by_cases hle : p.2.2 ≤ e'.2.2 <;> simp [hle]

theorem oldestEntry_min {α : Type} {l : MemTable α} :
    ∀ {e : String × α × Int}, oldestEntry l = some e →
      ∀ x ∈ l, e.2.2 ≤ x.2.2 := by
  induction l with
  | nil => intro e h; simp [oldestEntry] at h
  | cons p rest ih =>
    intro e h x hx
    unfold oldestEntry at h
    cases hr : oldestEntry rest with
    | none =>
      rw [hr] at h
      simp at h
      subst h
      have hrest : rest = [] := by
        by_contra hne
        have hs := oldestEntry_isSome (l := rest) hne
        rw [hr] at hs
        simp at hs
      subst hrest
      rcases List.mem_cons.mp hx with hx | hx
      · simp [hx]
      · simp at hx
    | some e' =>
      rw [hr] at h
      have h2 : (if p.2.2 ≤ e'.2.2 then some p else some e') = some e := h
      by_cases hle : p.2.2 ≤ e'.2.2
      · rw [if_pos hle] at h2
        simp at h2
        subst h2
        rcases List.mem_cons.mp hx with hx | hx
        · simp [hx]
        · exact le_trans hle (ih hr x hx)
      · rw [if_neg hle] at h2
        simp at h2
        subst h2
        rcases List.mem_cons.mp hx with hx | hx
        · rw [hx]
          exact le_of_lt (lt_of_not_le hle)
        · exact ih hr x hx

theorem oldestEntry_head {α : Type} (e : String × α × Int) (rest : MemTable α)
    (h : ∀ x ∈ rest, e.2.2 ≤ x.2.2) : oldestEntry (e :: rest) = some e := by
  unfold oldestEntry
  cases hr : oldestEntry rest with
  | none => rfl
  | some e' =>
    have : e.2.2 ≤ e'.2.2 := h e' (oldestEntry_mem hr)
    simp [this]

/-! ### Eviction lemmas -/

theorem mem_evictIfFull {α : Type} {l : MemTable α} {mx : Nat}
    {e : String × α × Int} (h : e ∈ evictIfFull l mx) : e ∈ l := by
  unfold evictIfFull at h
  split at h
  · cases ho : oldestEntry l with
    | none => rw [ho] at h; exact h
    | some e' => rw [ho] at h; exact mem_aerase h
  · exact h

theorem evictIfFull_lookup {α : Type} (l : MemTable α) (mx : Nat)
    (k : String) :
    alookup (evictIfFull l mx) k = none ∨
      alookup (evictIfFull l mx) k = alookup l k := by
  unfold evictIfFull
  split
  · cases ho : oldestEntry l with
    | none => exact Or.inr rfl
    | some e =>
      by_cases he : e.1 = k
      · exact Or.inl (by rw [alookup_aerase, if_pos he])
      · exact Or.inr (by rw [alookup_aerase, if_neg he])
  · exact Or.inr rfl

theorem evictIfFull_length_le {α : Type} (l : MemTable α) (mx : Nat) :
    (evictIfFull l mx).length ≤ l.length := by
  unfold evictIfFull
  split
  · cases ho : oldestEntry l with
    | none => exact le_refl _
    | some e => exact aerase_length_le l e.1
  · exact le_refl _

theorem evictIfFull_length_lt {α : Type} {l : MemTable α} {mx : Nat}
    (hmx : 0 < mx) (hcap : l.length ≥ mx) :
    (evictIfFull l mx).length < l.length := by
  have hne : l ≠ [] := by
    intro hl
    rw [hl] at hcap
    simp at hcap
    omega
  cases ho : oldestEntry l with
  | none =>
    have hs := oldestEntry_isSome hne
    rw [ho] at hs
    simp at hs
  | some e =>
    have he : e ∈ l := oldestEntry_mem ho
    have hsome : (alookup l e.1).isSome := by
      obtain ⟨ek, ev⟩ := e
      exact alookup_isSome_of_mem he
    unfold evictIfFull
    rw [if_pos hcap, ho]
    exact aerase_length_lt hsome

theorem setMemoryCache_disk {α : Type} (s : CacheManager α) (k : String)
    (v : α) (t : Int) : (CacheManager.setMemoryCache s k v t).disk = s.disk :=
  rfl

theorem setMemoryCache_max {α : Type} (s : CacheManager α) (k : String)
    (v : α) (t : Int) :
    (CacheManager.setMemoryCache s k v t).max_memory_items =
      s.max_memory_items :=
  rfl

theorem setMemoryCache_delta {α : Type} (s : CacheManager α) (k : String)
    (v : α) (t : Int) :
    (CacheManager.setMemoryCache s k v t).expiry_delta = s.expiry_delta :=
  rfl

theorem setMemoryCache_lookup_self {α : Type} (s : CacheManager α)
    (k : String) (v : α) (t : Int) :
    alookup (CacheManager.setMemoryCache s k v t).memory_cache k =
      some (v, t) := by
  unfold CacheManager.setMemoryCache
  exact alookup_ainsert_self _ k (v, t)

theorem setMemoryCache_lookup_ne {α : Type} (s : CacheManager α)
    (k k' : String) (v : α) (t : Int) (h : k' ≠ k) :
    alookup (CacheManager.setMemoryCache s k v t).memory_cache k' = none ∨
      alookup (CacheManager.setMemoryCache s k v t).memory_cache k' =
        alookup s.memory_cache k' := by
  have hbase :
      alookup (CacheManager.setMemoryCache s k v t).memory_cache k' =
        alookup (evictIfFull s.memory_cache s.max_memory_items) k' := by
    unfold CacheManager.setMemoryCache
    exact alookup_ainsert_ne _ k k' (v, t) h
  rcases evictIfFull_lookup s.memory_cache s.max_memory_items k' with h2 | h2
  · exact Or.inl (hbase.trans h2)
  · exact Or.inr (hbase.trans h2)

theorem mem_setMemoryCache {α : Type} {s : CacheManager α} {k : String}
    {v : α} {t : Int} {e : String × α × Int}
    (h : e ∈ (CacheManager.setMemoryCache s k v t).memory_cache) :
    e = (k, v, t) ∨ e ∈ s.memory_cache := by
  unfold CacheManager.setMemoryCache at h
  rcases mem_ainsert h with h | h
  · exact Or.inl h
  · exact Or.inr (mem_evictIfFull h)

theorem setMemoryCache_length {α : Type} (s : CacheManager α) (k : String)
    (v : α) (t : Int) (hmx : 0 < s.max_memory_items)
    (hlen : s.memory_cache.length ≤ s.max_memory_items) :
    (CacheManager.setMemoryCache s k v t).memory_cache.length ≤
      s.max_memory_items := by
  have hins :
      (CacheManager.setMemoryCache s k v t).memory_cache.length ≤
        (evictIfFull s.memory_cache s.max_memory_items).length + 1 := by
    unfold CacheManager.setMemoryCache
    exact ainsert_length_le _ k (v, t)
  by_cases hcap : s.memory_cache.length ≥ s.max_memory_items
  · have hlt := evictIfFull_length_lt (l := s.memory_cache) hmx hcap
    omega
  · have heq : evictIfFull s.memory_cache s.max_memory_items =
        s.memory_cache := by
      unfold evictIfFull
      rw [if_neg hcap]
    rw [heq] at hins
    omega

/-! ### Field-preservation of the manager operations -/

theorem readDisk_fields {α : Type} (s : CacheManager α) (now : Int)
    (k : String) :
    (CacheManager.readDisk s now k).2.max_memory_items = s.max_memory_items ∧
      (CacheManager.readDisk s now k).2.expiry_delta = s.expiry_delta := by
  unfold CacheManager.readDisk
  split
  · exact ⟨rfl, rfl⟩
  · exact ⟨rfl, rfl⟩
  · split
    · exact ⟨rfl, rfl⟩
    · exact ⟨rfl, rfl⟩

theorem get_fields {α : Type} (s : CacheManager α) (now : Int) (k : String)
    (u : Bool) :
    (CacheManager.get s now k u).2.max_memory_items = s.max_memory_items ∧
      (CacheManager.get s now k u).2.expiry_delta = s.expiry_delta := by
  unfold CacheManager.get
  split
  · split
    · split
      · exact ⟨rfl, rfl⟩
      · exact readDisk_fields _ now k
    · exact readDisk_fields _ now k
  · exact readDisk_fields _ now k

theorem set_fields {α : Type} (s : CacheManager α) (now : Int) (k : String)
    (v : α) (p w : Bool) :
    (CacheManager.set s now k v p w).2.max_memory_items =
        s.max_memory_items ∧
      (CacheManager.set s now k v p w).2.expiry_delta = s.expiry_delta := by
  unfold CacheManager.set
  split
  · split
    · exact ⟨rfl, rfl⟩
    · exact ⟨rfl, rfl⟩
  · exact ⟨rfl, rfl⟩

theorem delete_fields {α : Type} (s : CacheManager α) (k : String) :
    (CacheManager.delete s k).2.max_memory_items = s.max_memory_items ∧
      (CacheManager.delete s k).2.expiry_delta = s.expiry_delta := by
  unfold CacheManager.delete
  split
  · exact ⟨rfl, rfl⟩
  · exact ⟨rfl, rfl⟩

theorem clear_all_fields {α : Type} (s : CacheManager α) :
    (CacheManager.clear_all s).2.max_memory_items = s.max_memory_items ∧
      (CacheManager.clear_all s).2.expiry_delta = s.expiry_delta :=
  ⟨rfl, rfl⟩

/-! ### Step lemmas: one equation per source branch -/

theorem get_memory_hit {α : Type} {s : CacheManager α} {now : Int}
    {k : String} {v : α} {t : Int}
    (hm : alookup s.memory_cache k = some (v, t))
    (hfresh : now - t < s.expiry_delta) :
    CacheManager.get s now k true = (some v, s) := by
  unfold CacheManager.get
  rw [if_pos (show (true : Bool) = true from rfl), hm]
  exact if_pos hfresh

theorem get_memory_expired {α : Type} {s : CacheManager α} {now : Int}
    {k : String} {v : α} {t : Int}
    (hm : alookup s.memory_cache k = some (v, t))
    (hexp : ¬(now - t < s.expiry_delta)) :
    CacheManager.get s now k true =
      CacheManager.readDisk { s with memory_cache := aerase s.memory_cache k }
        now k := by
  unfold CacheManager.get
  rw [if_pos (show (true : Bool) = true from rfl), hm]
  exact if_neg hexp

theorem get_memory_miss {α : Type} {s : CacheManager α} {now : Int}
    {k : String} (hm : alookup s.memory_cache k = none) :
    CacheManager.get s now k true = CacheManager.readDisk s now k := by
  unfold CacheManager.get
  rw [if_pos (show (true : Bool) = true from rfl), hm]

theorem get_no_memory {α : Type} (s : CacheManager α) (now : Int)
    (k : String) :
    CacheManager.get s now k false = CacheManager.readDisk s now k := by
  unfold CacheManager.get
  rw [if_neg (show ¬((false : Bool) = true) by simp)]

theorem readDisk_none {α : Type} {s : CacheManager α} {now : Int} {k : String}
    (hd : alookup s.disk (getCachePath k) = none) :
    CacheManager.readDisk s now k = (none, s) := by
  unfold CacheManager.readDisk
  rw [hd]

theorem readDisk_corrupt {α : Type} {s : CacheManager α} {now : Int}
    {k : String} (hd : alookup s.disk (getCachePath k) = some .corrupt) :
    CacheManager.readDisk s now k = (none, s) := by
  unfold CacheManager.readDisk
  rw [hd]

theorem readDisk_expired {α : Type} {s : CacheManager α} {now : Int}
    {k : String} {v : α} {ts : Int}
    (hd : alookup s.disk (getCachePath k) = some (DiskRecord.good v ts))
    (hexp : now - ts > s.expiry_delta) :
    CacheManager.readDisk s now k =
      (none, { s with disk := aerase s.disk (getCachePath k) }) := by
  unfold CacheManager.readDisk
  rw [hd]
  exact if_pos hexp

theorem readDisk_fresh {α : Type} {s : CacheManager α} {now : Int}
    {k : String} {v : α} {ts : Int}
    (hd : alookup s.disk (getCachePath k) = some (DiskRecord.good v ts))
    (hfresh : ¬(now - ts > s.expiry_delta)) :
    CacheManager.readDisk s now k =
      (some v, CacheManager.setMemoryCache s k v ts) := by
  unfold CacheManager.readDisk
  rw [hd]
  exact if_neg hfresh

theorem set_memory_cache {α : Type} (s : CacheManager α) (t : Int)
    (k : String) (v : α) (p w : Bool) :
    (CacheManager.set s t k v p w).2.memory_cache =
      (CacheManager.setMemoryCache s k v t).memory_cache := by
  unfold CacheManager.set
  split
  · split
    · rfl
    · rfl
  · rfl

theorem set_persist_ok {α : Type} (s : CacheManager α) (t : Int) (k : String)
    (v : α) :
    CacheManager.set s t k v true true =
      (true, { CacheManager.setMemoryCache s k v t with
               disk := ainsert s.disk (getCachePath k)
                 (DiskRecord.good v t) }) :=
  rfl

theorem set_persist_fail {α : Type} (s : CacheManager α) (t : Int)
    (k : String) (v : α) :
    CacheManager.set s t k v true false =
      (false, CacheManager.setMemoryCache s k v t) :=
  rfl

theorem set_no_persist {α : Type} (s : CacheManager α) (t : Int) (k : String)
    (v : α) (w : Bool) :
    CacheManager.set s t k v false w =
      (true, CacheManager.setMemoryCache s k v t) :=
  rfl

theorem set_disk_fail {α : Type} (s : CacheManager α) (t : Int) (k : String)
    (v : α) : (CacheManager.set s t k v true false).2.disk = s.disk :=
  rfl

theorem set_disk_no_persist {α : Type} (s : CacheManager α) (t : Int)
    (k : String) (v : α) (w : Bool) :
    (CacheManager.set s t k v false w).2.disk = s.disk :=
  rfl

theorem set_disk_ok {α : Type} (s : CacheManager α) (t : Int) (k : String)
    (v : α) :
    (CacheManager.set s t k v true true).2.disk =
      ainsert s.disk (getCachePath k) (DiskRecord.good v t) :=
  rfl

theorem beta3_get_memory_hit {α : Type} {s : Beta3Cache α} {now : Int}
    {k : String} {v : α} {t : Int}
    (hm : alookup s.memory_cache k = some (v, t))
    (hfresh : now - t < s.expiry_delta) :
    Beta3Cache.get s now k = (some v, s) := by
  unfold Beta3Cache.get
  rw [hm]
  exact if_pos hfresh

theorem beta3_set_memory {α : Type} (s : Beta3Cache α) (now : Int)
    (k : String) (v : α) (w : Bool) :
    (Beta3Cache.set s now k v w).memory_cache =
      ainsert s.memory_cache k (v, now) := by
  unfold Beta3Cache.set
  split
  · rfl
  · rfl

theorem beta3_set_delta {α : Type} (s : Beta3Cache α) (now : Int) (k : String)
    (v : α) (w : Bool) :
    (Beta3Cache.set s now k v w).expiry_delta = s.expiry_delta := by
  unfold Beta3Cache.set
  split
  · rfl
  · rfl

theorem dataCache_get_hit {α : Type} {s : DataCache α} {now : Int}
    {k : String} {v : α} {t : Int} (hm : alookup s.store k = some (t, v))
    (hfresh : ¬(now - t > s.ttl_seconds)) :
    DataCache.get s now k = (some v, s) := by
  unfold DataCache.get
  rw [hm]
  exact if_neg hfresh

theorem matchesPklGlob_append (x : String) :
    matchesPklGlob (x ++ ".pkl") = true := by
  unfold matchesPklGlob
  simp only [String.data_append, List.isSuffixOf_iff_suffix]
  exact List.suffix_append _ _

theorem matchesPklGlob_getCachePath (k : String) :
    matchesPklGlob (getCachePath k) = true := by
  unfold getCachePath
  exact matchesPklGlob_append _

theorem matchesPklGlob_beta3CachePath (k : String) :
    matchesPklGlob (beta3CachePath k) = true := by
  unfold beta3CachePath
  exact matchesPklGlob_append _

theorem alookup_filter_none {β : Type} (l : List (String × β))
    (f : String × β → Bool) (k : String)
    (h : ∀ v, (k, v) ∈ l → f (k, v) = false) :
    alookup (l.filter f) k = none := by
  induction l with
  | nil => rfl
  | cons p rest ih =>
    have hrest : ∀ v, (k, v) ∈ rest → f (k, v) = false := fun v hv =>
      h v (List.mem_cons_of_mem _ hv)
    obtain ⟨pk, pv⟩ := p
    by_cases hk : pk = k
    · subst hk
      have hp : f (pk, pv) = false := h pv (List.mem_cons_self _ _)
      rw [List.filter_cons, hp]
      simpa using ih hrest
    · rw [List.filter_cons]
      cases hf : f (pk, pv)
      · simpa using ih hrest
      · simpa [alookup, hk] using ih hrest

/-! ### Claims -/

/-- C1: write-then-read round trip.  For every key `k` and value `v`,
`set(k, v)` followed immediately by `get(k)` — i.e. at any later time still
strictly inside the ttl window — returns exactly `v`, in all three cache
variants (ApexAnalytics `CacheManager`, Beta3 `CacheManager`, Dashboard-UI
`DataCache`), for every starting state, persist flag and disk-write
outcome. -/
theorem claim1_write_then_read {α : Type} (s₁ : CacheManager α)
    (s₂ : Beta3Cache α) (s₃ : DataCache α) (t t' : Int) (k : String) (v : α)
    (p w w₂ : Bool)
    (h₁ : t' - t < s₁.expiry_delta)
    (h₂ : t' - t < s₂.expiry_delta)
    (h₃ : t' - t < s₃.ttl_seconds) :
    (CacheManager.get (CacheManager.set s₁ t k v p w).2 t' k true).1 =
        some v ∧
      (Beta3Cache.get (Beta3Cache.set s₂ t k v w₂) t' k).1 = some v ∧
      (DataCache.get (DataCache.set s₃ t k v) t' k).1 = some v := by
  refine ⟨?_, ?_, ?_⟩
  · have hmem :
        alookup (CacheManager.set s₁ t k v p w).2.memory_cache k =
          some (v, t) := by
      rw [set_memory_cache]
      exact setMemoryCache_lookup_self s₁ k v t
    have hδ := (set_fields s₁ t k v p w).2
    rw [get_memory_hit hmem (by rw [hδ]; exact h₁)]
  · have hmem :
        alookup (Beta3Cache.set s₂ t k v w₂).memory_cache k =
          some (v, t) := by
      rw [beta3_set_memory]
      exact alookup_ainsert_self _ k (v, t)
    have hδ := beta3_set_delta s₂ t k v w₂
    rw [beta3_get_memory_hit hmem (by rw [hδ]; exact h₂)]
  · have hmem : alookup (DataCache.set s₃ t k v).store k = some (t, v) :=
      alookup_ainsert_self _ k (t, v)
    have hfresh : ¬(t' - t > (DataCache.set s₃ t k v).ttl_seconds) := by
      show ¬(t' - t > s₃.ttl_seconds)
      omega
    rw [dataCache_get_hit hmem hfresh]

/-- Witness for C1 at concrete inputs: fresh stores with ttl 10, `set` at
time 0, `get` at time 1. -/
theorem claim1_write_then_read_witness :
    ((1 : Int) - 0 < 10) ∧
      (CacheManager.get
          (CacheManager.set (⟨[], [], 50, 10⟩ : CacheManager Nat) 0 "k" 42
            true true).2 1 "k" true).1 = some 42 ∧
      (Beta3Cache.get
          (Beta3Cache.set (⟨[], [], 10⟩ : Beta3Cache Nat) 0 "k" 42 true) 1
          "k").1 = some 42 ∧
      (DataCache.get (DataCache.set (⟨10, []⟩ : DataCache Nat) 0 "k" 42) 1
          "k").1 = some 42 := by
  have h := claim1_write_then_read (⟨[], [], 50, 10⟩ : CacheManager Nat)
    (⟨[], [], 10⟩ : Beta3Cache Nat) (⟨10, []⟩ : DataCache Nat) 0 1 "k" 42
    true true true (by decide) (by decide) (by decide)
  exact ⟨by decide, h.1, h.2.1, h.2.2⟩

/-- C2 counterexample: the disk-expiry boundary is open, not closed.  With
`ttl = 10`, a record written at time 0 and read at time 10 has age exactly
`ttl`; the claim demands that `get` delete it and return absent, but the code
tests `now - timestamp > expiry_delta`, so it promotes the record and returns
the value, leaving the file in place. -/
theorem claim2_counterexample :
    ((10 : Int) - 0 ≥ 10) ∧
      (CacheManager.get
          (⟨[], [(getCachePath "k", DiskRecord.good 42 0)], 50, 10⟩ :
            CacheManager Nat) 10 "k" true).1 = some 42 ∧
      alookup
          (CacheManager.get
              (⟨[], [(getCachePath "k", DiskRecord.good 42 0)], 50, 10⟩ :
                CacheManager Nat) 10 "k" true).2.disk
          (getCachePath "k") = some (DiskRecord.good 42 0) := by
  refine ⟨by decide, ?_, ?_⟩
  · rfl
  · rfl

/-- C2 (amended): lazy disk expiry with strict boundary.  If `get` misses the
memory tier and the persisted record's age satisfies
`now - created_at > ttl` (strictly), the record is deleted and `get` returns
absent; and after `set(k, v)` with a successful persisted write, waiting
strictly longer than `ttl` makes `get(k)` return absent whether the lookup
goes through the memory tier (`use_memory = true`) or straight to disk
(`use_memory = false`). -/
theorem claim2_amended_disk_expiry {α : Type} (s s' : CacheManager α)
    (now t t' : Int) (k k' : String) (v v' : α) (ts : Int) (u : Bool)
    (hm : alookup s.memory_cache k = none)
    (hd : alookup s.disk (getCachePath k) = some (DiskRecord.good v ts))
    (hexp : now - ts > s.expiry_delta)
    (hwait : t' - t > s'.expiry_delta) :
    ((CacheManager.get s now k true).1 = none ∧
      alookup (CacheManager.get s now k true).2.disk (getCachePath k) =
        none) ∧
      (CacheManager.get (CacheManager.set s' t k' v' true true).2 t' k'
          u).1 = none := by
  constructor
  · rw [get_memory_miss hm, readDisk_expired hd hexp]
    refine ⟨rfl, ?_⟩
    show alookup (aerase s.disk (getCachePath k)) (getCachePath k) = none
    rw [alookup_aerase, if_pos rfl]
  · have hδ := (set_fields s' t k' v' true true).2
    have hmem :
        alookup (CacheManager.set s' t k' v' true true).2.memory_cache k' =
          some (v', t) := by
      rw [set_memory_cache]
      exact setMemoryCache_lookup_self s' k' v' t
    have hdisk :
        alookup (CacheManager.set s' t k' v' true true).2.disk
            (getCachePath k') = some (DiskRecord.good v' t) := by
      rw [set_disk_ok]
      exact alookup_ainsert_self _ _ _
    have hexp' :
        t' - t > (CacheManager.set s' t k' v' true true).2.expiry_delta := by
      rw [hδ]
      exact hwait
    cases u with
    | false =>
      rw [get_no_memory, readDisk_expired hdisk hexp']
    | true =>
      rw [get_memory_expired hmem (by omega)]
      have hdisk2 :
          alookup
              ({ (CacheManager.set s' t k' v' true true).2 with
                  memory_cache :=
                    aerase (CacheManager.set s' t k' v' true
                        true).2.memory_cache k' }).disk (getCachePath k') =
            some (DiskRecord.good v' t) := hdisk
      rw [readDisk_expired hdisk2 hexp']

/-- Witness for C2 (amended): ttl 10, record written at time 0, read at
time 11 — deleted and absent; and a fresh store `set` at 0 then `get` at 11
is absent. -/
theorem claim2_amended_witness :
    ((11 : Int) - 0 > 10) ∧
      ((CacheManager.get
            (⟨[], [(getCachePath "k", DiskRecord.good 7 0)], 50, 10⟩ :
              CacheManager Nat) 11 "k" true).1 = none ∧
        alookup
            (CacheManager.get
                (⟨[], [(getCachePath "k", DiskRecord.good 7 0)], 50, 10⟩ :
                  CacheManager Nat) 11 "k" true).2.disk
            (getCachePath "k") = none) ∧
      (CacheManager.get
          (CacheManager.set (⟨[], [], 50, 10⟩ : CacheManager Nat) 0 "q" 9
            true true).2 11 "q" true).1 = none := by
  have h := claim2_amended_disk_expiry
    (⟨[], [(getCachePath "k", DiskRecord.good 7 0)], 50, 10⟩ :
      CacheManager Nat)
    (⟨[], [], 50, 10⟩ : CacheManager Nat) 11 0 11 "k" "q" 7 9 0 true
    rfl rfl (by decide) (by decide)
  exact ⟨by decide, h.1, h.2⟩

/-- C3: the read path never propagates a storage failure.  With a garbage
(undeserializable) persisted record at the key's path, `get` returns absent
— through the `except` branch — and leaves the state unchanged; the key is
then writable again via `set` (which returns `True`), and a `get` within the
ttl window returns the new value. -/
theorem claim3_get_corrupt_safe {α : Type} (s : CacheManager α)
    (now t t' : Int) (k : String) (v : α) (u : Bool)
    (hc : alookup s.disk (getCachePath k) = some DiskRecord.corrupt)
    (hm : u = true → alookup s.memory_cache k = none)
    (hfresh : t' - t < s.expiry_delta) :
    (CacheManager.get s now k u).1 = none ∧
      (CacheManager.get s now k u).2 = s ∧
      (CacheManager.set (CacheManager.get s now k u).2 t k v true
          true).1 = true ∧
      (CacheManager.get
          (CacheManager.set (CacheManager.get s now k u).2 t k v true
            true).2 t' k true).1 = some v := by
  have hget : CacheManager.get s now k u = (none, s) := by
    cases u with
    | false => rw [get_no_memory, readDisk_corrupt hc]
    | true => rw [get_memory_miss (hm rfl), readDisk_corrupt hc]
  refine ⟨by rw [hget], by rw [hget], by rw [hget, set_persist_ok], ?_⟩
  rw [hget]
  show (CacheManager.get (CacheManager.set s t k v true true).2 t' k
      true).1 = some v
  have hmem :
      alookup (CacheManager.set s t k v true true).2.memory_cache k =
        some (v, t) := by
    rw [set_memory_cache]
    exact setMemoryCache_lookup_self s k v t
  have hδ := (set_fields s t k v true true).2
  rw [get_memory_hit hmem (by rw [hδ]; exact hfresh)]

/-- Witness for C3: a store holding only a corrupt record for `"k"`. -/
theorem claim3_get_corrupt_safe_witness :
    ((1 : Int) - 0 < 10) ∧
      (CacheManager.get
          (⟨[], [(getCachePath "k", DiskRecord.corrupt)], 50, 10⟩ :
            CacheManager Nat) 5 "k" true).1 = none ∧
      (CacheManager.get
          (CacheManager.set
            (CacheManager.get
                (⟨[], [(getCachePath "k", DiskRecord.corrupt)], 50, 10⟩ :
                  CacheManager Nat) 5 "k" true).2 0 "k" 42 true true).2 1
          "k" true).1 = some 42 := by
  have h := claim3_get_corrupt_safe
    (⟨[], [(getCachePath "k", DiskRecord.corrupt)], 50, 10⟩ :
      CacheManager Nat) 5 0 1 "k" 42 true rfl (fun _ => rfl) (by decide)
  exact ⟨by decide, h.1, h.2.2.2⟩

/-- C4 counterexample: `get` does NOT self-heal a corrupt record.  With a
garbage record at `"k"`'s path, `get` returns absent but the corrupt file is
still present afterwards, contradicting the claim that it is best-effort
deleted. -/
theorem claim4_counterexample :
    (CacheManager.get
        (⟨[], [(getCachePath "k", DiskRecord.corrupt)], 50, 10⟩ :
          CacheManager Nat) 0 "k" true).1 = none ∧
      alookup
          (CacheManager.get
              (⟨[], [(getCachePath "k", DiskRecord.corrupt)], 50, 10⟩ :
                CacheManager Nat) 0 "k" true).2.disk (getCachePath "k") =
        some DiskRecord.corrupt := by
  exact ⟨rfl, rfl⟩

/-- C4 (amended): a persisted file that cannot be deserialized is treated as
a miss, but `get` leaves the bad file in place — the `except` branch only
logs and returns `None`.  The deletion of unreadable files happens only in
Beta3's `clear_expired` sweep, which removes every `*.pkl` file it cannot
parse. -/
theorem claim4_amended_corrupt_kept {α : Type} (s : CacheManager α)
    (s₂ : Beta3Cache α) (now now₂ : Int) (k k₂ : String) (u : Bool)
    (hc : alookup s.disk (getCachePath k) = some DiskRecord.corrupt)
    (hm : u = true → alookup s.memory_cache k = none)
    (hall : ∀ r, (beta3CachePath k₂, r) ∈ s₂.disk → r = DiskRecord.corrupt) :
    (CacheManager.get s now k u).1 = none ∧
      (CacheManager.get s now k u).2 = s ∧
      alookup (CacheManager.get s now k u).2.disk (getCachePath k) =
        some DiskRecord.corrupt ∧
      alookup (Beta3Cache.clear_expired s₂ now₂).disk (beta3CachePath k₂) =
        none := by
  have hget : CacheManager.get s now k u = (none, s) := by
    cases u with
    | false => rw [get_no_memory, readDisk_corrupt hc]
    | true => rw [get_memory_miss (hm rfl), readDisk_corrupt hc]
  refine ⟨by rw [hget], by rw [hget], by rw [hget]; exact hc, ?_⟩
  unfold Beta3Cache.clear_expired
  refine alookup_filter_none _ _ _ ?_
  intro r hr
  rw [hall r hr]
  simp [matchesPklGlob_beta3CachePath]

/-- Witness for C4 (amended): ApexAnalytics store with a corrupt record that
`get` keeps, Beta3 store whose corrupt record `clear_expired` removes. -/
theorem claim4_amended_witness :
    (CacheManager.get
        (⟨[], [(getCachePath "k", DiskRecord.corrupt)], 50, 10⟩ :
          CacheManager Nat) 3 "k" true).1 = none ∧
      alookup
          (CacheManager.get
              (⟨[], [(getCachePath "k", DiskRecord.corrupt)], 50, 10⟩ :
                CacheManager Nat) 3 "k" true).2.disk (getCachePath "k") =
        some DiskRecord.corrupt ∧
      alookup
          (Beta3Cache.clear_expired
              (⟨[], [(beta3CachePath "k", DiskRecord.corrupt)], 10⟩ :
                Beta3Cache Nat) 0).disk (beta3CachePath "k") = none := by
  have h := claim4_amended_corrupt_kept
    (⟨[], [(getCachePath "k", DiskRecord.corrupt)], 50, 10⟩ :
      CacheManager Nat)
    (⟨[], [(beta3CachePath "k", DiskRecord.corrupt)], 10⟩ : Beta3Cache Nat)
    3 0 "k" "k" true rfl (fun _ => rfl)
    (by
      intro r hr
      rcases List.mem_cons.mp hr with h | h
      · exact congrArg Prod.snd h
      · exact absurd h (List.not_mem_nil _))
  exact ⟨h.1, h.2.2.1, h.2.2.2⟩

theorem aerase_length_nodup {β : Type} {l : List (String × β)} {k : String}
    (hnd : (l.map Prod.fst).Nodup) (h : (alookup l k).isSome) :
    (aerase l k).length = l.length - 1 := by
  induction l with
  | nil => simp [alookup] at h
  | cons p rest ih =>
    obtain ⟨pk, pv⟩ := p
    rw [List.map_cons] at hnd
    have hnd' := List.nodup_cons.mp hnd
    by_cases hk : pk = k
    · subst hk
      have hkeys : ∀ q ∈ rest, q.1 ≠ (pk, pv).1 := by
        intro q hq hq1
        exact hnd'.1 (hq1 ▸ List.mem_map_of_mem Prod.fst hq)
      rw [aerase_cons_head (pk, pv) rest hkeys]
      simp
    · have h' : (alookup rest k).isSome := by simpa [alookup, hk] using h
      have hpos : 0 < rest.length := by
        cases rest with
        | nil => simp [alookup] at h'
        | cons q tl => simp
      have hstep : aerase ((pk, pv) :: rest) k = (pk, pv) :: aerase rest k := by
        simp [aerase, List.filter_cons, hk]
      rw [hstep]
      have hrec := ih hnd'.2 h'
      simp only [List.length_cons, hrec]
      omega

/-- C7: `set` failure atomicity for the memory tier.  `set(k, v,
persist=true)` always installs `(v, now)` into the memory tier regardless of
the disk-write outcome; when the persisted write fails, `set` returns
`False`, the disk is unchanged, and the memory entry is not rolled back, so
a `get(k)` within the ttl window still returns `v`. -/
theorem claim7_set_failure_memory_kept {α : Type} (s : CacheManager α)
    (t t' : Int) (k : String) (v : α)
    (hfresh : t' - t < s.expiry_delta) :
    (∀ w, alookup (CacheManager.set s t k v true w).2.memory_cache k =
        some (v, t)) ∧
      (CacheManager.set s t k v true false).1 = false ∧
      (CacheManager.set s t k v true false).2.disk = s.disk ∧
      (CacheManager.get (CacheManager.set s t k v true false).2 t' k
          true).1 = some v := by
  refine ⟨?_, rfl, rfl, ?_⟩
  · intro w
    rw [set_memory_cache]
    exact setMemoryCache_lookup_self s k v t
  · have hmem :
        alookup (CacheManager.set s t k v true false).2.memory_cache k =
          some (v, t) := by
      rw [set_memory_cache]
      exact setMemoryCache_lookup_self s k v t
    have hδ := (set_fields s t k v true false).2
    rw [get_memory_hit hmem (by rw [hδ]; exact hfresh)]

/-- Witness for C7: empty store, failed disk write at time 0, read back at
time 1. -/
theorem claim7_set_failure_memory_kept_witness :
    ((1 : Int) - 0 < 10) ∧
      (CacheManager.set (⟨[], [], 50, 10⟩ : CacheManager Nat) 0 "k" 42 true
          false).1 = false ∧
      (CacheManager.get
          (CacheManager.set (⟨[], [], 50, 10⟩ : CacheManager Nat) 0 "k" 42
            true false).2 1 "k" true).1 = some 42 := by
  have h := claim7_set_failure_memory_kept
    (⟨[], [], 50, 10⟩ : CacheManager Nat) 0 1 "k" 42 (by decide)
  exact ⟨by decide, h.2.1, h.2.2.2⟩

/-- C10: eviction on refresh.  In the ApexAnalytics `_set_memory_cache`,
the eviction check runs whenever the dict already holds at least
`max_memory_items` entries — even when the key being written is already
present.  If the oldest entry belongs to a different key, a `set` that
merely refreshes an existing key evicts that unrelated entry, and the
number of keys in memory decreases by one. -/
theorem claim10_refresh_can_evict {α : Type} (s : CacheManager α)
    (k : String) (v : α) (t : Int) (e : String × α × Int) (p w : Bool)
    (hnd : (s.memory_cache.map Prod.fst).Nodup)
    (hk : (alookup s.memory_cache k).isSome)
    (hcap : s.memory_cache.length ≥ s.max_memory_items)
    (hold : oldestEntry s.memory_cache = some e)
    (hne : e.1 ≠ k) :
    (∀ x ∈ s.memory_cache, e.2.2 ≤ x.2.2) ∧
      alookup (CacheManager.set s t k v p w).2.memory_cache e.1 = none ∧
      alookup (CacheManager.set s t k v p w).2.memory_cache k =
        some (v, t) ∧
      (CacheManager.set s t k v p w).2.memory_cache.length =
        s.memory_cache.length - 1 := by
  have hevict : evictIfFull s.memory_cache s.max_memory_items =
      aerase s.memory_cache e.1 := by
    unfold evictIfFull
    rw [if_pos hcap, hold]
  have hmemeq : (CacheManager.set s t k v p w).2.memory_cache =
      ainsert (aerase s.memory_cache e.1) k (v, t) := by
    rw [set_memory_cache]
    unfold CacheManager.setMemoryCache
    rw [hevict]
  have hkept : alookup (aerase s.memory_cache e.1) k =
      alookup s.memory_cache k := by
    rw [alookup_aerase, if_neg hne]
  have hemem : (alookup s.memory_cache e.1).isSome := by
    obtain ⟨ek, ev⟩ := e
    exact alookup_isSome_of_mem (oldestEntry_mem hold)
  refine ⟨oldestEntry_min hold, ?_, ?_, ?_⟩
  · rw [hmemeq, alookup_ainsert_ne _ k e.1 (v, t) hne, alookup_aerase,
      if_pos rfl]
  · rw [hmemeq]
    exact alookup_ainsert_self _ k (v, t)
  · rw [hmemeq, ainsert_length_isSome (v, t) (by rw [hkept]; exact hk)]
    exact aerase_length_nodup hnd hemem

/-- Witness for C10: capacity 2, keys `"a"` (older) and `"b"`; refreshing
`"b"` evicts `"a"` and shrinks the tier to one key. -/
theorem claim10_refresh_can_evict_witness :
    (alookup
        (CacheManager.set
            (⟨[("a", 10, 0), ("b", 20, 5)], [], 2, 100⟩ : CacheManager Nat)
            9 "b" 30 true true).2.memory_cache "a" = none) ∧
      (alookup
          (CacheManager.set
              (⟨[("a", 10, 0), ("b", 20, 5)], [], 2, 100⟩ :
                CacheManager Nat) 9 "b" 30 true true).2.memory_cache "b" =
        some (30, 9)) ∧
      (CacheManager.set
          (⟨[("a", 10, 0), ("b", 20, 5)], [], 2, 100⟩ : CacheManager Nat) 9
          "b" 30 true true).2.memory_cache.length = 1 := by
  have h := claim10_refresh_can_evict
    (⟨[("a", 10, 0), ("b", 20, 5)], [], 2, 100⟩ : CacheManager Nat) "b"
    30 9 ("a", 10, 0) true true (by decide) (by decide) (by decide)
    (by decide) (by decide)
  exact ⟨h.2.1, h.2.2.1, h.2.2.2⟩

/-- C6: `clear_all` contract (ApexAnalytics variant).  On a store with no
persisted records it returns 0; on every store it empties the memory dict,
removes every `*.pkl` file of the namespace, and returns the number of
persisted files removed (memory-only removals are not counted); every
subsequent `get`, over any key at all, returns absent. -/
theorem claim6_clear_all_contract {α : Type} (s s₀ : CacheManager α)
    (now : Int) (k : String) (u : Bool) (h₀ : s₀.disk = []) :
    (CacheManager.clear_all s₀).1 = 0 ∧
      (CacheManager.clear_all s).2.memory_cache = [] ∧
      (∀ q r, (q, r) ∈ (CacheManager.clear_all s).2.disk →
        matchesPklGlob q = false) ∧
      (CacheManager.clear_all s).1 =
        (s.disk.filter (fun p => matchesPklGlob p.1)).length ∧
      (CacheManager.get (CacheManager.clear_all s).2 now k u).1 = none := by
  refine ⟨?_, rfl, ?_, rfl, ?_⟩
  · show (s₀.disk.filter (fun p => matchesPklGlob p.1)).length = 0
    rw [h₀]
    rfl
  · intro q r hq
    have h2 := List.mem_filter.mp hq
    simpa using h2.2
  · have hm : alookup (CacheManager.clear_all s).2.memory_cache k = none :=
      rfl
    have hd : alookup (CacheManager.clear_all s).2.disk (getCachePath k) =
        none := by
      show alookup (s.disk.filter (fun p => !(matchesPklGlob p.1)))
        (getCachePath k) = none
      refine alookup_filter_none _ _ _ ?_
      intro v hv
      simp [matchesPklGlob_getCachePath]
    cases u with
    | false => rw [get_no_memory, readDisk_none hd]
    | true => rw [get_memory_miss hm, readDisk_none hd]

/-- Witness for C6: empty store returns 0; a store holding one memory entry,
one good record and one corrupt record counts 2 removed files and every
later `get` is absent. -/
theorem claim6_clear_all_contract_witness :
    (CacheManager.clear_all (⟨[], [], 50, 10⟩ : CacheManager Nat)).1 = 0 ∧
      (CacheManager.clear_all
          (⟨[("a", 1, 0)],
            [(getCachePath "a", DiskRecord.good 1 0),
             (getCachePath "b", DiskRecord.corrupt)], 50, 10⟩ :
            CacheManager Nat)).1 = 2 ∧
      (CacheManager.get
          (CacheManager.clear_all
              (⟨[("a", 1, 0)],
                [(getCachePath "a", DiskRecord.good 1 0),
                 (getCachePath "b", DiskRecord.corrupt)], 50, 10⟩ :
                CacheManager Nat)).2 0 "a" true).1 = none := by
  have h := claim6_clear_all_contract
    (⟨[("a", 1, 0)],
      [(getCachePath "a", DiskRecord.good 1 0),
       (getCachePath "b", DiskRecord.corrupt)], 50, 10⟩ : CacheManager Nat)
    (⟨[], [], 50, 10⟩ : CacheManager Nat) 0 "a" true rfl
  refine ⟨h.1, ?_, h.2.2.2.2⟩
  rw [h.2.2.2.1]
  decide

theorem replaceChar_not_mem (s : String) (c r : Char) (hcr : c ≠ r) :
    c ∉ (replaceChar s c r).data := by
  unfold replaceChar
  intro hmem
  rcases List.mem_map.mp hmem with ⟨x, _, hx⟩
  by_cases h : x = c
  · rw [if_pos h] at hx
    exact hcr.symm hx
  · rw [if_neg h] at hx
    exact h hx

theorem replaceChar_not_mem_preserve (s : String) (c c' r : Char)
    (hs : c ∉ s.data) (hr : c ≠ r) : c ∉ (replaceChar s c' r).data := by
  unfold replaceChar
  intro hmem
  rcases List.mem_map.mp hmem with ⟨x, hxs, hx⟩
  by_cases h : x = c'
  · rw [if_pos h] at hx
    exact hr.symm hx
  · rw [if_neg h] at hx
    exact hs (hx ▸ hxs)

/-- C9 counterexample: the Beta3 sanitizer does not replace colons (the
resulting filename still contains one), and the ApexAnalytics sanitizer
does not replace other filesystem-unsafe characters such as `*`. -/
theorem claim9_counterexample :
    beta3CachePath "a:b" = "a:b.pkl" ∧
      (':' ∈ (beta3CachePath "a:b").data) ∧
      ('*' ∈ (getCachePath "a*b").data) := by
  exact ⟨rfl, by decide, by decide⟩

/-- C9 (amended): the persisted-record location is a deterministic pure
function of the key, built by character substitution plus the fixed `.pkl`
suffix.  ApexAnalytics replaces exactly `/`, `\` and `:` with `_`, so its
paths never contain any of those three characters; Beta3 replaces only `/`
and `\`, leaving colons in place; other filesystem-unsafe characters are
not replaced.  Distinct keys may sanitize to the same filename (accepted
collision), e.g. `a/b` and `a_b`. -/
theorem claim9_amended_sanitization :
    (∀ k : String, '/' ∉ (getCachePath k).data ∧
        '\\' ∉ (getCachePath k).data ∧ ':' ∉ (getCachePath k).data) ∧
      (∀ k : String, '/' ∉ (beta3CachePath k).data ∧
        '\\' ∉ (beta3CachePath k).data) ∧
      getCachePath "a:b" = "a_b.pkl" ∧
      beta3CachePath "a:b" = "a:b.pkl" ∧
      ("a/b" ≠ "a_b" ∧ getCachePath "a/b" = getCachePath "a_b") := by
  have hsuffix : ∀ c : Char, c ∈ (".pkl" : String).data →
      c = '.' ∨ c = 'p' ∨ c = 'k' ∨ c = 'l' := by decide
  refine ⟨?_, ?_, rfl, rfl, by decide, rfl⟩
  · intro k
    refine ⟨?_, ?_, ?_⟩
    · intro hmem
      rw [getCachePath, String.data_append] at hmem
      rcases List.mem_append.mp hmem with h | h
      · exact replaceChar_not_mem_preserve _ '/' ':' '_'
          (replaceChar_not_mem_preserve _ '/' '\\' '_'
            (replaceChar_not_mem _ '/' '_' (by decide)) (by decide))
          (by decide) h
      · rcases hsuffix _ h with h | h | h | h <;> exact absurd h (by decide)
    · intro hmem
      rw [getCachePath, String.data_append] at hmem
      rcases List.mem_append.mp hmem with h | h
      · exact replaceChar_not_mem_preserve _ '\\' ':' '_'
          (replaceChar_not_mem _ '\\' '_' (by decide)) (by decide) h
      · rcases hsuffix _ h with h | h | h | h <;> exact absurd h (by decide)
    · intro hmem
      rw [getCachePath, String.data_append] at hmem
      rcases List.mem_append.mp hmem with h | h
      · exact replaceChar_not_mem _ ':' '_' (by decide) h
      · rcases hsuffix _ h with h | h | h | h <;> exact absurd h (by decide)
  · intro k
    refine ⟨?_, ?_⟩
    · intro hmem
      rw [beta3CachePath, String.data_append] at hmem
      rcases List.mem_append.mp hmem with h | h
      · exact replaceChar_not_mem_preserve _ '/' '\\' '_'
          (replaceChar_not_mem _ '/' '_' (by decide)) (by decide) h
      · rcases hsuffix _ h with h | h | h | h <;> exact absurd h (by decide)
    · intro hmem
      rw [beta3CachePath, String.data_append] at hmem
      rcases List.mem_append.mp hmem with h | h
      · exact replaceChar_not_mem _ '\\' '_' (by decide) h
      · rcases hsuffix _ h with h | h | h | h <;> exact absurd h (by decide)

/-- Witness for C9 (amended): the universal parts instantiated at the
colon-bearing key `"x:/y"`. -/
theorem claim9_amended_sanitization_witness :
    ('/' ∉ (getCachePath "x:/y").data ∧ ':' ∉ (getCachePath "x:/y").data) ∧
      ('/' ∉ (beta3CachePath "x:/y").data) ∧
      getCachePath "a:b" = "a_b.pkl" := by
  have h := claim9_amended_sanitization
  exact ⟨⟨(h.1 "x:/y").1, (h.1 "x:/y").2.2⟩, (h.2.1 "x:/y").1, h.2.2.1⟩

/-! ### Memory-length bounds for each operation -/

theorem readDisk_length {α : Type} (s : CacheManager α) (now : Int)
    (k : String) (hmx : 0 < s.max_memory_items)
    (hlen : s.memory_cache.length ≤ s.max_memory_items) :
    (CacheManager.readDisk s now k).2.memory_cache.length ≤
      s.max_memory_items := by
  unfold CacheManager.readDisk
  split
  · exact hlen
  · exact hlen
  · split
    · exact hlen
    · exact setMemoryCache_length s k _ _ hmx hlen

theorem get_length {α : Type} (s : CacheManager α) (now : Int) (k : String)
    (u : Bool) (hmx : 0 < s.max_memory_items)
    (hlen : s.memory_cache.length ≤ s.max_memory_items) :
    (CacheManager.get s now k u).2.memory_cache.length ≤
      s.max_memory_items := by
  unfold CacheManager.get
  split
  · split
    · split
      · exact hlen
      · exact readDisk_length _ now k hmx
          (le_trans (aerase_length_le _ _) hlen)
    · exact readDisk_length s now k hmx hlen
  · exact readDisk_length s now k hmx hlen

theorem set_length {α : Type} (s : CacheManager α) (now : Int) (k : String)
    (v : α) (p w : Bool) (hmx : 0 < s.max_memory_items)
    (hlen : s.memory_cache.length ≤ s.max_memory_items) :
    (CacheManager.set s now k v p w).2.memory_cache.length ≤
      s.max_memory_items := by
  have h : (CacheManager.set s now k v p w).2.memory_cache.length =
      (CacheManager.setMemoryCache s k v now).memory_cache.length := by
    rw [set_memory_cache]
  rw [h]
  exact setMemoryCache_length s k v now hmx hlen

theorem delete_length {α : Type} (s : CacheManager α) (k : String)
    (hlen : s.memory_cache.length ≤ s.max_memory_items) :
    (CacheManager.delete s k).2.memory_cache.length ≤
      s.max_memory_items := by
  unfold CacheManager.delete
  split
  · exact le_trans (aerase_length_le _ _) hlen
  · exact le_trans (aerase_length_le _ _) hlen

/-- Capacity invariant: every reachable state of the ApexAnalytics manager
keeps a positive capacity and at most that many memory entries. -/
theorem reachable_mem_bound {α : Type} {P : String → Prop} {T : Int}
    {s : CacheManager α} (h : ReachableP P T s) :
    0 < s.max_memory_items ∧
      s.memory_cache.length ≤ s.max_memory_items := by
  induction h with
  | init d mx δ T hmx hd => exact ⟨hmx, by simp⟩
  | step_get T now k u s hr hT hP ih =>
    have hf := (get_fields s now k u).1
    refine ⟨hf ▸ ih.1, ?_⟩
    rw [hf]
    exact get_length s now k u ih.1 ih.2
  | step_set T now k v p w s hr hT hP ih =>
    have hf := (set_fields s now k v p w).1
    refine ⟨hf ▸ ih.1, ?_⟩
    rw [hf]
    exact set_length s now k v p w ih.1 ih.2
  | step_delete T k s hr hP ih =>
    have hf := (delete_fields s k).1
    refine ⟨hf ▸ ih.1, ?_⟩
    rw [hf]
    exact delete_length s k ih.2
  | step_clear T s hr ih =>
    exact ⟨ih.1, by simp [CacheManager.clear_all]⟩

/-! ### Multi-`set` scenario machinery -/

theorem alookup_append_of_none {β : Type} {l₁ : List (String × β)}
    (l₂ : List (String × β)) {k : String} (h : alookup l₁ k = none) :
    alookup (l₁ ++ l₂) k = alookup l₂ k := by
  induction l₁ with
  | nil => rfl
  | cons p rest ih =>
    obtain ⟨pk, pv⟩ := p
    by_cases hk : pk = k
    · simp [alookup, hk] at h
    · have h' : alookup rest k = none := by simpa [alookup, hk] using h
      simpa [alookup, hk] using ih h'

theorem runSets_append {α : Type} (l₁ l₂ : List (SetOp α))
    (s : CacheManager α) :
    runSets s (l₁ ++ l₂) = runSets (runSets s l₁) l₂ := by
  induction l₁ generalizing s with
  | nil => rfl
  | cons op rest ih =>
    obtain ⟨t, k, v, p⟩ := op
    simpa [runSets] using ih _

theorem diskFold_lookup {α : Type} (items : List (SetOp α)) (d : DiskTable α)
    (q : String) (h : ∀ op ∈ items, getCachePath op.2.1 ≠ q) :
    alookup (diskFold d items) q = alookup d q := by
  induction items generalizing d with
  | nil => rfl
  | cons op rest ih =>
    obtain ⟨t, k, v, p⟩ := op
    have hk : getCachePath k ≠ q :=
      h (t, k, v, p) (List.mem_cons_self _ _)
    have hrest : ∀ op ∈ rest, getCachePath op.2.1 ≠ q := fun op hop =>
      h op (List.mem_cons_of_mem _ hop)
    show alookup (diskFold (if p then ainsert d (getCachePath k)
        (DiskRecord.good v t) else d) rest) q = alookup d q
    rw [ih _ hrest]
    cases p
    · rfl
    · exact alookup_ainsert_ne d (getCachePath k) q (DiskRecord.good v t)
        (fun hq => hk hq.symm)

/-- Phase lemma: a run of successful `set` calls whose keys are pairwise
distinct, absent from memory, and fit in the remaining capacity simply
appends its entries to the memory dict and folds its persisted writes into
the disk table. -/
theorem runSets_fresh {α : Type} (items : List (SetOp α)) :
    ∀ (s : CacheManager α),
      (∀ op ∈ items, alookup s.memory_cache op.2.1 = none) →
      (items.map (fun op => op.2.1)).Nodup →
      s.memory_cache.length + items.length ≤ s.max_memory_items →
      (runSets s items).memory_cache =
          s.memory_cache ++ items.map opEntry ∧
        (runSets s items).disk = diskFold s.disk items ∧
        (runSets s items).max_memory_items = s.max_memory_items ∧
        (runSets s items).expiry_delta = s.expiry_delta := by
  induction items with
  | nil => intro s _ _ _; exact ⟨by simp [runSets], rfl, rfl, rfl⟩
  | cons op rest ih =>
    intro s hfresh hnd hcap
    obtain ⟨t, k, v, p⟩ := op
    have hk : alookup s.memory_cache k = none :=
      hfresh (t, k, v, p) (List.mem_cons_self _ _)
    have hlt : ¬(s.memory_cache.length ≥ s.max_memory_items) := by
      simp only [List.length_cons] at hcap
      omega
    have hmem' : (CacheManager.set s t k v p true).2.memory_cache =
        s.memory_cache ++ [(k, v, t)] := by
      rw [set_memory_cache]
      show ainsert (evictIfFull s.memory_cache s.max_memory_items) k
        (v, t) = s.memory_cache ++ [(k, v, t)]
      unfold evictIfFull
      rw [if_neg hlt]
      exact ainsert_of_none (v, t) hk
    have hdisk' : (CacheManager.set s t k v p true).2.disk =
        (if p then ainsert s.disk (getCachePath k) (DiskRecord.good v t)
         else s.disk) := by
      cases p
      · rfl
      · rfl
    have hnd2 : (rest.map (fun op => op.2.1)).Nodup := by
      simp only [List.map_cons, List.nodup_cons] at hnd
      exact hnd.2
    have hknotin : k ∉ rest.map (fun op => op.2.1) := by
      simp only [List.map_cons, List.nodup_cons] at hnd
      exact hnd.1
    have hfresh' : ∀ op ∈ rest,
        alookup (CacheManager.set s t k v p true).2.memory_cache op.2.1 =
          none := by
      intro op' hop
      rw [hmem']
      have hne : op'.2.1 ≠ k := by
        intro hq
        exact hknotin (hq ▸ List.mem_map_of_mem (fun op => op.2.1) hop)
      rw [alookup_append_of_none _ (hfresh op' (List.mem_cons_of_mem _ hop))]
      simp [alookup]
      exact Ne.symm hne
    have hcap' :
        (CacheManager.set s t k v p true).2.memory_cache.length +
            rest.length ≤
          (CacheManager.set s t k v p true).2.max_memory_items := by
      rw [hmem', (set_fields s t k v p true).1]
      simp only [List.length_append, List.length_singleton]
      simp only [List.length_cons] at hcap
      omega
    have hrun := ih (CacheManager.set s t k v p true).2 hfresh' hnd2 hcap'
    have hstep : runSets s ((t, k, v, p) :: rest) =
        runSets (CacheManager.set s t k v p true).2 rest := rfl
    refine ⟨?_, ?_, ?_, ?_⟩
    · rw [hstep, hrun.1, hmem']
      simp [opEntry]
    · rw [hstep, hrun.2.1, hdisk']
      rfl
    · rw [hstep, hrun.2.2.1, (set_fields s t k v p true).1]
    · rw [hstep, hrun.2.2.2, (set_fields s t k v p true).2]

/-- C5 counterexample: without a no-collision proviso, the "absent if it was
not persisted" clause fails.  Capacity 1; `set("a/b", 7, persist=False)` at
time 0, then `set("a_b", 8, persist=True)` at time 1 — two distinct keys
that both sanitize to `a_b.pkl`.  The oldest key `"a/b"` is evicted from
memory and was never persisted, yet `get("a/b")` inside the ttl window
reads the colliding record `a_b.pkl` and returns 8 instead of absent. -/
theorem claim5_counterexample :
    ("a/b" ≠ "a_b") ∧
      (runSets (⟨[], [], 1, 10⟩ : CacheManager Nat)
          [(0, "a/b", 7, false), (1, "a_b", 8, true)]).memory_cache.length =
        1 ∧
      alookup
          (runSets (⟨[], [], 1, 10⟩ : CacheManager Nat)
            [(0, "a/b", 7, false), (1, "a_b", 8, true)]).memory_cache
          "a/b" = none ∧
      (CacheManager.get
          (runSets (⟨[], [], 1, 10⟩ : CacheManager Nat)
            [(0, "a/b", 7, false), (1, "a_b", 8, true)]) 2 "a/b" true).1 =
        some 8 := by
  exact ⟨by decide, rfl, by decide, by decide⟩

/-- C5 (amended): eviction bound and order, with the insertion scenario
restricted to keys that sanitize to pairwise-distinct cache paths (the same
proviso the collision forces on C8).  (a) In every reachable state the
memory tier holds at most `max_memory_items` entries.  (b) When an
insertion runs while the tier is at capacity, the entry removed is one with
the oldest `created_at` timestamp, and (c) eviction never touches the disk
table.  (d) Inserting `C + 1` distinct keys with pairwise-distinct
sanitized paths and strictly increasing timestamps into a fresh store of
capacity `C` leaves exactly `C` keys in memory, the first (oldest) key is
no longer in memory, and a `get` of that key inside the ttl window returns
its value when its write was persisted and absent when it was not. -/
theorem claim5_eviction_bound_and_order {α : Type}
    (T : Int) (sR : CacheManager α)
    (hR : ReachableP (fun _ => True) T sR)
    (sE : CacheManager α) (kE : String) (vE : α) (tE : Int)
    (e : String × α × Int)
    (hcapE : sE.memory_cache.length ≥ sE.max_memory_items)
    (holdE : oldestEntry sE.memory_cache = some e)
    (mx : Nat) (δ now t₀ tl : Int) (k₀ kl : String) (v₀ vl : α)
    (p₀ pl : Bool) (mid : List (SetOp α))
    (hmid : mid.length + 1 = mx)
    (hnd : (((t₀, k₀, v₀, p₀) :: (mid ++ [(tl, kl, vl, pl)])).map
      (fun op => op.2.1)).Nodup)
    (hpaths : (((t₀, k₀, v₀, p₀) :: (mid ++ [(tl, kl, vl, pl)])).map
      (fun op => getCachePath op.2.1)).Nodup)
    (htimes : List.Pairwise (fun a b : SetOp α => a.1 < b.1)
      ((t₀, k₀, v₀, p₀) :: (mid ++ [(tl, kl, vl, pl)])))
    (hnow : ¬(now - t₀ > δ)) :
    sR.memory_cache.length ≤ sR.max_memory_items ∧
      (∀ x ∈ sE.memory_cache, e.2.2 ≤ x.2.2) ∧
      (CacheManager.setMemoryCache sE kE vE tE).disk = sE.disk ∧
      (e.1 ≠ kE →
        alookup (CacheManager.setMemoryCache sE kE vE tE).memory_cache e.1 =
          none) ∧
      (runSets (⟨[], [], mx, δ⟩ : CacheManager α)
          ((t₀, k₀, v₀, p₀) ::
            (mid ++ [(tl, kl, vl, pl)]))).memory_cache.length = mx ∧
      alookup
          (runSets (⟨[], [], mx, δ⟩ : CacheManager α)
              ((t₀, k₀, v₀, p₀) ::
                (mid ++ [(tl, kl, vl, pl)]))).memory_cache k₀ = none ∧
      (p₀ = true →
        (CacheManager.get
            (runSets (⟨[], [], mx, δ⟩ : CacheManager α)
              ((t₀, k₀, v₀, p₀) :: (mid ++ [(tl, kl, vl, pl)]))) now k₀
            true).1 = some v₀) ∧
      (p₀ = false →
        (CacheManager.get
            (runSets (⟨[], [], mx, δ⟩ : CacheManager α)
              ((t₀, k₀, v₀, p₀) :: (mid ++ [(tl, kl, vl, pl)]))) now k₀
            true).1 = none) := by
  -- key/path disjointness facts
  have hnd' : ((t₀, k₀, v₀, p₀).2.1 :: (mid.map (fun op => op.2.1) ++
      [(tl, kl, vl, pl).2.1])).Nodup := by
    have h3 := hnd
    rw [List.map_cons, List.map_append, List.map_singleton] at h3
    exact h3
  have hndk : k₀ ∉ (mid.map (fun op => op.2.1)) ++ [kl] ∧
      ((mid.map (fun op => op.2.1)) ++ [kl]).Nodup :=
    ⟨(List.nodup_cons.mp hnd').1, (List.nodup_cons.mp hnd').2⟩
  have hk₀mid : k₀ ∉ mid.map (fun op => op.2.1) := fun h =>
    hndk.1 (List.mem_append.mpr (Or.inl h))
  have hk₀kl : k₀ ≠ kl := by
    intro h
    exact hndk.1 (List.mem_append.mpr (Or.inr (by simp [h])))
  have hklmid : kl ∉ mid.map (fun op => op.2.1) := by
    intro h
    have hd := List.disjoint_of_nodup_append hndk.2
    exact hd h (by simp)
  have hpaths2 : getCachePath k₀ ∉
      (mid.map (fun op => getCachePath op.2.1)) ++ [getCachePath kl] := by
    have h3 := hpaths
    rw [List.map_cons, List.map_append, List.map_singleton] at h3
    exact (List.nodup_cons.mp h3).1
  have hpathmid : ∀ op ∈ mid, getCachePath op.2.1 ≠ getCachePath k₀ := by
    intro op hop h
    exact hpaths2 (List.mem_append.mpr
      (Or.inl (h ▸ List.mem_map_of_mem _ hop)))
  have hpathkl : getCachePath k₀ ≠ getCachePath kl := by
    intro h
    exact hpaths2 (List.mem_append.mpr (Or.inr (by simp [h])))
  -- phase A: the first mx sets append without eviction
  have hA := runSets_fresh ((t₀, k₀, v₀, p₀) :: mid)
    (⟨[], [], mx, δ⟩ : CacheManager α) (fun _ _ => rfl)
    (by
      simp only [List.map_cons, List.nodup_cons]
      constructor
      · exact fun h => hk₀mid h
      · exact (List.nodup_append.mp hndk.2).1)
    (by
      show ([] : MemTable α).length + ((t₀, k₀, v₀, p₀) :: mid).length ≤ mx
      simp only [List.length_nil, List.length_cons]
      omega)
  have hmemA : (runSets (⟨[], [], mx, δ⟩ : CacheManager α)
      ((t₀, k₀, v₀, p₀) :: mid)).memory_cache =
      (k₀, v₀, t₀) :: mid.map opEntry := by
    rw [hA.1]
    simp [opEntry]
  have hdiskA : (runSets (⟨[], [], mx, δ⟩ : CacheManager α)
      ((t₀, k₀, v₀, p₀) :: mid)).disk =
      diskFold [] ((t₀, k₀, v₀, p₀) :: mid) := hA.2.1
  have hmaxA : (runSets (⟨[], [], mx, δ⟩ : CacheManager α)
      ((t₀, k₀, v₀, p₀) :: mid)).max_memory_items = mx := hA.2.2.1
  have hδA : (runSets (⟨[], [], mx, δ⟩ : CacheManager α)
      ((t₀, k₀, v₀, p₀) :: mid)).expiry_delta = δ := hA.2.2.2
  -- the final set call evicts the oldest entry, i.e. the head
  have hsplit : runSets (⟨[], [], mx, δ⟩ : CacheManager α)
      ((t₀, k₀, v₀, p₀) :: (mid ++ [(tl, kl, vl, pl)])) =
      (CacheManager.set
        (runSets (⟨[], [], mx, δ⟩ : CacheManager α)
          ((t₀, k₀, v₀, p₀) :: mid)) tl kl vl pl true).2 := by
    show runSets (⟨[], [], mx, δ⟩ : CacheManager α)
      (((t₀, k₀, v₀, p₀) :: mid) ++ [(tl, kl, vl, pl)]) = _
    rw [runSets_append]
    rfl
  have htimes0 := (List.pairwise_cons.mp htimes).1
  have holdA : oldestEntry (runSets (⟨[], [], mx, δ⟩ : CacheManager α)
      ((t₀, k₀, v₀, p₀) :: mid)).memory_cache = some (k₀, v₀, t₀) := by
    rw [hmemA]
    refine oldestEntry_head _ _ ?_
    intro x hx
    rcases List.mem_map.mp hx with ⟨op, hop, hxe⟩
    have := htimes0 op (List.mem_append.mpr (Or.inl hop))
    rw [← hxe]
    show t₀ ≤ op.1
    omega
  have hcapA : (runSets (⟨[], [], mx, δ⟩ : CacheManager α)
      ((t₀, k₀, v₀, p₀) :: mid)).memory_cache.length ≥
      (runSets (⟨[], [], mx, δ⟩ : CacheManager α)
        ((t₀, k₀, v₀, p₀) :: mid)).max_memory_items := by
    rw [hmemA, hmaxA]
    simp [hmid]
  have hmidne : ∀ q ∈ mid.map opEntry, q.1 ≠ (k₀, v₀, t₀).1 := by
    intro q hq hq1
    rcases List.mem_map.mp hq with ⟨op, hop, hqe⟩
    apply hk₀mid
    subst hqe
    have h3 : op.2.1 = k₀ := hq1
    exact h3 ▸ List.mem_map_of_mem (fun op => op.2.1) hop
  have hevict : evictIfFull
      (runSets (⟨[], [], mx, δ⟩ : CacheManager α)
        ((t₀, k₀, v₀, p₀) :: mid)).memory_cache
      (runSets (⟨[], [], mx, δ⟩ : CacheManager α)
        ((t₀, k₀, v₀, p₀) :: mid)).max_memory_items = mid.map opEntry := by
    unfold evictIfFull
    rw [if_pos hcapA, holdA, hmemA]
    exact aerase_cons_head _ _ hmidne
  have hklnone : alookup (mid.map opEntry) kl = none := by
    refine alookup_eq_none ?_
    intro q hq hq1
    rcases List.mem_map.mp hq with ⟨op, hop, hqe⟩
    apply hklmid
    subst hqe
    have h3 : op.2.1 = kl := hq1
    exact h3 ▸ List.mem_map_of_mem (fun op => op.2.1) hop
  have hmemF : (runSets (⟨[], [], mx, δ⟩ : CacheManager α)
      ((t₀, k₀, v₀, p₀) :: (mid ++ [(tl, kl, vl, pl)]))).memory_cache =
      mid.map opEntry ++ [(kl, vl, tl)] := by
    rw [hsplit, set_memory_cache]
    show ainsert (evictIfFull _ _) kl (vl, tl) = _
    rw [hevict]
    exact ainsert_of_none (vl, tl) hklnone
  have hk₀noneF : alookup (runSets (⟨[], [], mx, δ⟩ : CacheManager α)
      ((t₀, k₀, v₀, p₀) ::
        (mid ++ [(tl, kl, vl, pl)]))).memory_cache k₀ = none := by
    rw [hmemF]
    have h1 : alookup (mid.map opEntry) k₀ = none := by
      refine alookup_eq_none ?_
      intro q hq hq1
      rcases List.mem_map.mp hq with ⟨op, hop, hqe⟩
      apply hk₀mid
      subst hqe
      have h3 : op.2.1 = k₀ := hq1
      exact h3 ▸ List.mem_map_of_mem (fun op => op.2.1) hop
    rw [alookup_append_of_none _ h1]
    simp [alookup]
    exact Ne.symm hk₀kl
  have hδF : (runSets (⟨[], [], mx, δ⟩ : CacheManager α)
      ((t₀, k₀, v₀, p₀) ::
        (mid ++ [(tl, kl, vl, pl)]))).expiry_delta = δ := by
    rw [hsplit, (set_fields _ _ _ _ _ _).2, hδA]
  have hdiskF : alookup (runSets (⟨[], [], mx, δ⟩ : CacheManager α)
      ((t₀, k₀, v₀, p₀) :: (mid ++ [(tl, kl, vl, pl)]))).disk
      (getCachePath k₀) =
      alookup (if p₀ then ainsert ([] : DiskTable α) (getCachePath k₀)
        (DiskRecord.good v₀ t₀) else []) (getCachePath k₀) := by
    have hstep : alookup (runSets (⟨[], [], mx, δ⟩ : CacheManager α)
        ((t₀, k₀, v₀, p₀) ::
          (mid ++ [(tl, kl, vl, pl)]))).disk (getCachePath k₀) =
        alookup (runSets (⟨[], [], mx, δ⟩ : CacheManager α)
          ((t₀, k₀, v₀, p₀) :: mid)).disk (getCachePath k₀) := by
      rw [hsplit]
      cases pl with
      | false => rfl
      | true =>
        rw [set_disk_ok]
        exact alookup_ainsert_ne _ _ _ _ hpathkl
    rw [hstep, hdiskA]
    show alookup (diskFold (if p₀ then ainsert ([] : DiskTable α)
      (getCachePath k₀) (DiskRecord.good v₀ t₀) else []) mid)
      (getCachePath k₀) = _
    exact diskFold_lookup mid _ (getCachePath k₀) hpathmid
  refine ⟨(reachable_mem_bound hR).2, oldestEntry_min holdE, rfl, ?_, ?_,
    hk₀noneF, ?_, ?_⟩
  · intro hne
    have hev : evictIfFull sE.memory_cache sE.max_memory_items =
        aerase sE.memory_cache e.1 := by
      unfold evictIfFull
      rw [if_pos hcapE, holdE]
    have h4 : alookup
        (CacheManager.setMemoryCache sE kE vE tE).memory_cache e.1 =
        alookup (aerase sE.memory_cache e.1) e.1 := by
      rw [show (CacheManager.setMemoryCache sE kE vE tE).memory_cache =
          ainsert (evictIfFull sE.memory_cache sE.max_memory_items) kE
            (vE, tE) from rfl,
        alookup_ainsert_ne _ kE e.1 (vE, tE) hne, hev]
    rw [h4, alookup_aerase, if_pos rfl]
  · rw [hmemF]
    simp [hmid]
  · intro hp₀
    rw [get_memory_miss hk₀noneF]
    have hd : alookup (runSets (⟨[], [], mx, δ⟩ : CacheManager α)
        ((t₀, k₀, v₀, p₀) :: (mid ++ [(tl, kl, vl, pl)]))).disk
        (getCachePath k₀) = some (DiskRecord.good v₀ t₀) := by
      rw [hdiskF, hp₀]
      simp only [if_true]
      exact alookup_ainsert_self _ _ _
    rw [readDisk_fresh hd (by rw [hδF]; exact hnow)]
  · intro hp₀
    rw [get_memory_miss hk₀noneF]
    have hd : alookup (runSets (⟨[], [], mx, δ⟩ : CacheManager α)
        ((t₀, k₀, v₀, p₀) :: (mid ++ [(tl, kl, vl, pl)]))).disk
        (getCachePath k₀) = none := by
      rw [hdiskF, hp₀]
      rfl
    rw [readDisk_none hd]

/-- Witness for C5: capacity 1, keys `"a"` then `"b"` (both persisted);
`"a"` is evicted from memory but still retrievable via disk promotion. -/
theorem claim5_eviction_bound_and_order_witness :
    (runSets (⟨[], [], 1, 10⟩ : CacheManager Nat)
        [(0, "a", 7, true), (1, "b", 8, true)]).memory_cache.length = 1 ∧
      alookup
          (runSets (⟨[], [], 1, 10⟩ : CacheManager Nat)
            [(0, "a", 7, true), (1, "b", 8, true)]).memory_cache "a" =
        none ∧
      (CacheManager.get
          (runSets (⟨[], [], 1, 10⟩ : CacheManager Nat)
            [(0, "a", 7, true), (1, "b", 8, true)]) 2 "a" true).1 =
        some 7 := by
  have h := claim5_eviction_bound_and_order 0
    (⟨[], [], 50, 10⟩ : CacheManager Nat)
    (ReachableP.init [] 50 10 0 (by decide)
      (fun p v ts hh => absurd hh (List.not_mem_nil _)))
    (⟨[("a", 5, 3)], [], 1, 10⟩ : CacheManager Nat) "b" 6 4 ("a", 5, 3)
    (by decide) (by decide) 1 10 2 0 1 "a" "b" 7 8 true true []
    (by decide) (by decide) (by decide) (by decide) (by decide)
  exact ⟨h.2.2.2.2.1, h.2.2.2.2.2.1, h.2.2.2.2.2.2.1 rfl⟩

/-! ### Invariant preservation for C8 -/

theorem inv_mono {α : Type} {P : String → Prop} {T T' : Int}
    {s : CacheManager α} (hTT : T ≤ T') (h : Inv P T s) : Inv P T' s := by
  refine ⟨?_, ?_, h.2.2⟩
  · intro e he
    exact ⟨le_trans (h.1 e he).1 hTT, (h.1 e he).2⟩
  · intro p v ts hm
    exact le_trans (h.2.1 p v ts hm) hTT

theorem inv_erase_mem {α : Type} {P : String → Prop} {T : Int}
    {s : CacheManager α} (k : String) (h : Inv P T s) :
    Inv P T { s with memory_cache := aerase s.memory_cache k } := by
  refine ⟨?_, h.2.1, ?_⟩
  · intro e he
    exact h.1 e (mem_aerase he)
  · intro k' d tm v td hm hd
    rw [show ({ s with memory_cache := aerase s.memory_cache k } :
        CacheManager α).memory_cache = aerase s.memory_cache k from rfl,
      alookup_aerase] at hm
    by_cases hk : k = k'
    · rw [if_pos hk] at hm
      exact absurd hm (by simp)
    · rw [if_neg hk] at hm
      exact h.2.2 k' d tm v td hm hd

theorem readDisk_inv {α : Type} {P : String → Prop} {T now : Int}
    {b : CacheManager α} (k : String) (hP : P k) (hT : T ≤ now)
    (hinv : Inv P T b) : Inv P now (CacheManager.readDisk b now k).2 := by
  unfold CacheManager.readDisk
  split
  · exact inv_mono hT hinv
  · exact inv_mono hT hinv
  · rename_i dta ts heq
    split
    · -- expired: the record is unlinked
      refine ⟨?_, ?_, ?_⟩
      · intro e he
        exact ⟨le_trans (hinv.1 e he).1 hT, (hinv.1 e he).2⟩
      · intro p v ts' hm
        exact le_trans (hinv.2.1 p v ts' (mem_aerase hm)) hT
      · intro k' d tm v td hm hd
        rw [show ({ b with disk := aerase b.disk (getCachePath k) } :
            CacheManager α).disk = aerase b.disk (getCachePath k) from rfl,
          alookup_aerase] at hd
        by_cases hpk : getCachePath k = getCachePath k'
        · rw [if_pos hpk] at hd
          exact absurd hd (by simp)
        · rw [if_neg hpk] at hd
          exact hinv.2.2 k' d tm v td hm hd
    · -- fresh: promote into memory with the record's own timestamp
      have hts : ts ≤ T :=
        hinv.2.1 (getCachePath k) dta ts (alookup_mem heq)
      refine ⟨?_, ?_, ?_⟩
      · intro e he
        rcases mem_setMemoryCache he with he | he
        · subst he
          exact ⟨le_trans hts hT, hP⟩
        · exact ⟨le_trans (hinv.1 e he).1 hT, (hinv.1 e he).2⟩
      · intro p v ts' hm
        exact le_trans (hinv.2.1 p v ts' hm) hT
      · intro k' d tm v td hm hd
        have hdisk : (CacheManager.setMemoryCache b k dta ts).disk =
            b.disk := rfl
        rw [hdisk] at hd
        by_cases hk : k' = k
        · subst hk
          rw [setMemoryCache_lookup_self] at hm
          have h5 := Option.some.inj hm
          have htm : ts = tm := congrArg Prod.snd h5
          have h2 : ts = td := by
            rw [heq] at hd
            have h6 := Option.some.inj hd
            cases h6
            rfl
          omega
        · rcases setMemoryCache_lookup_ne b k k' dta ts hk with h | h
          · rw [h] at hm
            exact absurd hm (by simp)
          · rw [h] at hm
            exact hinv.2.2 k' d tm v td hm hd

theorem get_inv {α : Type} {P : String → Prop} {T now : Int}
    {s : CacheManager α} (k : String) (u : Bool) (hP : P k) (hT : T ≤ now)
    (hinv : Inv P T s) : Inv P now (CacheManager.get s now k u).2 := by
  unfold CacheManager.get
  split
  · split
    · split
      · exact inv_mono hT hinv
      · exact readDisk_inv k hP hT (inv_erase_mem k hinv)
    · exact readDisk_inv k hP hT hinv
  · exact readDisk_inv k hP hT hinv

theorem set_inv {α : Type} {P : String → Prop} {T now : Int}
    {s : CacheManager α} (hinj : PathInj P) (k : String) (v : α)
    (p w : Bool) (hP : P k) (hT : T ≤ now) (hinv : Inv P T s) :
    Inv P now (CacheManager.set s now k v p w).2 := by
  have hmemb : MemBounded (CacheManager.set s now k v p w).2 P now := by
    intro e he
    rw [show (CacheManager.set s now k v p w).2.memory_cache =
        (CacheManager.setMemoryCache s k v now).memory_cache from
          set_memory_cache s now k v p w] at he
    rcases mem_setMemoryCache he with he | he
    · subst he
      exact ⟨le_refl now, hP⟩
    · exact ⟨le_trans (hinv.1 e he).1 hT, (hinv.1 e he).2⟩
  have hmemk : alookup (CacheManager.set s now k v p w).2.memory_cache k =
      some (v, now) := by
    rw [set_memory_cache]
    exact setMemoryCache_lookup_self s k v now
  have hmemne : ∀ k', k' ≠ k →
      alookup (CacheManager.set s now k v p w).2.memory_cache k' = none ∨
        alookup (CacheManager.set s now k v p w).2.memory_cache k' =
          alookup s.memory_cache k' := by
    intro k' hk'
    rw [set_memory_cache]
    exact setMemoryCache_lookup_ne s k k' v now hk'
  by_cases hpw : p = true ∧ w = true
  · obtain ⟨hp, hw⟩ := hpw
    subst hp
    subst hw
    have hdiskeq : (CacheManager.set s now k v true true).2.disk =
        ainsert s.disk (getCachePath k) (DiskRecord.good v now) :=
      set_disk_ok s now k v
    refine ⟨hmemb, ?_, ?_⟩
    · intro q r ts hm
      rw [hdiskeq] at hm
      rcases mem_ainsert hm with hm | hm
      · have : (DiskRecord.good r ts : DiskRecord α) = DiskRecord.good v now := congrArg Prod.snd hm
        simp at this
        omega
      · exact le_trans (hinv.2.1 q r ts hm) hT
    · intro k' d tm v' td hm hd
      by_cases hk : k' = k
      · subst hk
        rw [hmemk] at hm
        have htm : tm = now := by
          simp at hm
          omega
        rw [hdiskeq, alookup_ainsert_self] at hd
        have htd : td = now := by
          simp at hd
          omega
        rw [htm, htd]
      · rcases hmemne k' hk with h | h
        · rw [h] at hm
          exact absurd hm (by simp)
        · rw [h] at hm
          have hP' : P k' :=
            (hinv.1 (k', d, tm) (alookup_mem hm)).2
          have hpne : getCachePath k' ≠ getCachePath k := by
            intro hpeq
            exact hk (hinj k' k hP' hP hpeq)
          rw [hdiskeq, alookup_ainsert_ne _ _ _ _ hpne] at hd
          exact hinv.2.2 k' d tm v' td hm hd
  · have hdiskeq : (CacheManager.set s now k v p w).2.disk = s.disk := by
      cases p
      · rfl
      · cases w
        · rfl
        · exact absurd ⟨rfl, rfl⟩ hpw
    refine ⟨hmemb, ?_, ?_⟩
    · intro q r ts hm
      rw [hdiskeq] at hm
      exact le_trans (hinv.2.1 q r ts hm) hT
    · intro k' d tm v' td hm hd
      rw [hdiskeq] at hd
      by_cases hk : k' = k
      · subst hk
        rw [hmemk] at hm
        have htm : tm = now := by
          simp at hm
          omega
        have htd : td ≤ T := hinv.2.1 _ _ _ (alookup_mem hd)
        omega
      · rcases hmemne k' hk with h | h
        · rw [h] at hm
          exact absurd hm (by simp)
        · rw [h] at hm
          exact hinv.2.2 k' d tm v' td hm hd

theorem delete_state {α : Type} (s : CacheManager α) (k : String) :
    (CacheManager.delete s k).2.memory_cache = aerase s.memory_cache k ∧
      ((CacheManager.delete s k).2.disk =
          aerase s.disk (getCachePath k) ∨
        (CacheManager.delete s k).2.disk = s.disk) := by
  unfold CacheManager.delete
  split
  · exact ⟨rfl, Or.inl rfl⟩
  · exact ⟨rfl, Or.inr rfl⟩

theorem delete_inv {α : Type} {P : String → Prop} {T : Int}
    {s : CacheManager α} (k : String) (hinv : Inv P T s) :
    Inv P T (CacheManager.delete s k).2 := by
  have hms := (delete_state s k).1
  refine ⟨?_, ?_, ?_⟩
  · intro e he
    rw [hms] at he
    exact hinv.1 e (mem_aerase he)
  · intro q r ts hm
    rcases (delete_state s k).2 with hds | hds
    · rw [hds] at hm
      exact hinv.2.1 q r ts (mem_aerase hm)
    · rw [hds] at hm
      exact hinv.2.1 q r ts hm
  · intro k' d tm v td hm hd
    rw [hms, alookup_aerase] at hm
    by_cases hk : k = k'
    · rw [if_pos hk] at hm
      exact absurd hm (by simp)
    · rw [if_neg hk] at hm
      rcases (delete_state s k).2 with hds | hds
      · rw [hds, alookup_aerase] at hd
        by_cases hpk : getCachePath k = getCachePath k'
        · rw [if_pos hpk] at hd
          exact absurd hd (by simp)
        · rw [if_neg hpk] at hd
          exact hinv.2.2 k' d tm v td hm hd
      · rw [hds] at hd
        exact hinv.2.2 k' d tm v td hm hd

theorem clear_inv {α : Type} {P : String → Prop} {T : Int}
    {s : CacheManager α} (hinv : Inv P T s) :
    Inv P T (CacheManager.clear_all s).2 := by
  refine ⟨?_, ?_, ?_⟩
  · intro e he
    exact absurd he (List.not_mem_nil _)
  · intro q r ts hm
    exact hinv.2.1 q r ts (List.mem_of_mem_filter hm)
  · intro k' d tm v td hm hd
    exact absurd hm (by simp [alookup] at hm ⊢)

/-- The invariant holds in every reachable state, provided the admitted keys
sanitize injectively. -/
theorem reachable_inv {α : Type} {P : String → Prop} {T : Int}
    {s : CacheManager α} (hinj : PathInj P) (h : ReachableP P T s) :
    Inv P T s := by
  induction h with
  | init d mx δ T hmx hd =>
    refine ⟨?_, ?_, ?_⟩
    · intro e he
      exact absurd he (List.not_mem_nil _)
    · intro p v ts hm
      exact hd p v ts hm
    · intro k d' tm v td hm hd2
      exact absurd hm (by simp [alookup] at hm ⊢)
  | step_get T now k u s hr hT hP ih => exact get_inv k u hP hT ih
  | step_set T now k v p w s hr hT hP ih => exact set_inv hinj k v p w hP hT ih
  | step_delete T k s hr hP ih => exact delete_inv k ih
  | step_clear T s hr ih => exact clear_inv ih

/-- C8 counterexample: the memory-freshness invariant fails under a
sanitization collision.  From a fresh store, `set("a_b", 1)` at time 0 then
`set("a/b", 2)` at time 5 — both keys sanitize to `a_b.pkl` — reaches a state
where memory holds `("a_b", 1, 0)` while the disk record at `"a_b"`'s own
cache path carries timestamp 5: the memory entry is strictly older than the
persisted record for the same key. -/
theorem claim8_counterexample :
    ReachableP (fun _ => True) 5
        (CacheManager.set
          (CacheManager.set (⟨[], [], 50, 100⟩ : CacheManager Nat) 0 "a_b"
            1 true true).2 5 "a/b" 2 true true).2 ∧
      alookup
          (CacheManager.set
            (CacheManager.set (⟨[], [], 50, 100⟩ : CacheManager Nat) 0
              "a_b" 1 true true).2 5 "a/b" 2 true
            true).2.memory_cache "a_b" = some (1, 0) ∧
      alookup
          (CacheManager.set
            (CacheManager.set (⟨[], [], 50, 100⟩ : CacheManager Nat) 0
              "a_b" 1 true true).2 5 "a/b" 2 true true).2.disk
          (getCachePath "a_b") = some (DiskRecord.good 2 5) ∧
      ¬MemFresh
        (CacheManager.set
          (CacheManager.set (⟨[], [], 50, 100⟩ : CacheManager Nat) 0 "a_b"
            1 true true).2 5 "a/b" 2 true true).2 := by
  refine ⟨?_, by decide, by decide, ?_⟩
  · exact ReachableP.step_set 0 5 "a/b" 2 true true _
      (ReachableP.step_set 0 0 "a_b" 1 true true _
        (ReachableP.init [] 50 100 0 (by decide)
          (fun p v ts hh => absurd hh (List.not_mem_nil _)))
        le_rfl trivial)
      (by decide) trivial
  · intro hmf
    have h5 := hmf "a_b" 1 0 2 5 (by decide) (by decide)
    exact absurd h5 (by decide)

/-- C8 (amended): memory-freshness invariant under injective sanitization.
In every state reachable by `get`/`set`/`delete`/`clear_all` calls
(including `get` with `use_memory = false`) whose keys sanitize to pairwise
distinct cache paths, a memory-tier entry is never older, by `created_at`
timestamp, than the persisted record stored at that key's cache path.  With
colliding keys the invariant can fail (see the counterexample). -/
theorem claim8_amended_memory_freshness {α : Type} {P : String → Prop}
    {T : Int} {s : CacheManager α} (hinj : PathInj P)
    (hR : ReachableP P T s) : MemFresh s :=
  (reachable_inv hinj hR).2.2

/-- Witness for C8 (amended): keys restricted to the single string `"x"`;
after one persisted `set` the invariant holds. -/
theorem claim8_amended_memory_freshness_witness :
    MemFresh
      (CacheManager.set (⟨[], [], 50, 10⟩ : CacheManager Nat) 0 "x" 1 true
        true).2 := by
  refine claim8_amended_memory_freshness (P := fun q => q = "x") (T := 0)
    ?_ ?_
  · intro k₁ k₂ h1 h2 _
    rw [h1, h2]
  · exact ReachableP.step_set 0 0 "x" 1 true true _
      (ReachableP.init [] 50 10 0 (by decide)
        (fun p v ts hh => absurd hh (List.not_mem_nil _)))
      le_rfl rfl

end DataCacheSpec
